import Mathlib

/-!
# CasparCG server core: task executor, layer state machine, monitor paths

A shallow embedding of `common/concurrency/executor.h`,
`core/producer/layer.cpp` and `core/monitor/monitor.h`, with the transform
schedule of `core/producer/stage.h`, followed by the properties proved about
them.

Conventions of the embedding

* The two `tbb::concurrent_bounded_queue`s of the executor are lists, head
  first; `push` appends at the tail, `pop`/`try_pop` take the head.  The
  capacity of the normal queue is left at its default (no `set_capacity`
  call), so pushes never wait; `executor.stop_bounded` is `stop` for a
  capacity set with `set_capacity`.
* A function object handed to the executor is named by a number; what it
  does when it is called is looked up in a `program`.  A function may call
  `begin_invoke` on its own executor any number of times and then returns a
  value or throws.
* `boost::this_thread::get_id() == thread_.get_id()` is the Boolean
  `on_worker` passed to the operations that test it.
* Loops and recursion whose termination depends on the data take a fuel
  argument; running out of fuel is a separate result.
* Where functions wait on the futures of tasks, the tasks are kept in a table
  by number and a queue entry names its task (`task_executor`); elsewhere a
  queue entry names the function of a task that nobody waits for.
* `int64_t` arithmetic is modelled by wrap-around; signed overflow is
  undefined in the code, and what is proved about the value of such
  arithmetic assumes that it stays within `int64_range`.
-/

namespace caspar

/-! ## Definitions: `common/concurrency/executor.h` -/

/-- The enumeration `task_priority_def::type`, without the `priority_count` sentinel. -/
inductive task_priority
  | high_priority
  | normal_priority
  deriving DecidableEq, Repr

/-- Exceptions seen at the executor's interface: `invalid_operation` of
`common/except.h` with its optional `msg_info`, `boost::task_already_started`,
and whatever a submitted function throws itself. -/
inductive exception
  | invalid_operation (msg_info : Option String)
  | task_already_started
  | user (code : Nat)
  deriving DecidableEq, Repr

/-- What a submitted function does when it is called: the `begin_invoke`
calls it makes on its own executor, in order, and then the value it returns
(`ok`) or the code of the exception it throws (`error`). -/
structure func_body where
  submits : List (task_priority × Nat)
  result : Except Nat Nat

/-- The behaviour of every function object, by its number. -/
abbrev program := Nat → func_body

/-- A `std::function<void()>` stored in an execution queue: the lambda that
`begin_invoke` wraps around the packaged task of function `f`, the empty
lambda that `stop` pushes, or the `nullptr` pushed after a high priority task. -/
inductive entry
  | task (f : Nat)
  | noop
  | null
  deriving DecidableEq, Repr

/-- The fields of `class executor`: `is_running_` and the two
`execution_queue_` slots. -/
structure executor where
  is_running_ : Bool
  high : List entry
  normal : List entry
  deriving DecidableEq, Repr

/-- The state right after the constructor: running, both queues empty. -/
def executor.create : executor :=
  { is_running_ := true, high := [], normal := [] }

/-- The call `execution_queue_[priority.value()].push(e)`. -/
def executor.push (s : executor) (priority : task_priority) (e : entry) : executor :=
  match priority with
  | .high_priority => { s with high := s.high ++ [e] }
  | .normal_priority => { s with normal := s.normal ++ [e] }

/-- The method `executor::clear`: pops both queues until they are empty. -/
def executor.clear (s : executor) : executor :=
  { s with high := [], normal := [] }

/-- The method `executor::stop` on a normal queue that is not full (the
default capacity of the queue, which is never reached): clears the flag and
pushes an empty lambda on the normal queue.  `executor.stop_bounded` is the
method for any capacity set with `set_capacity`. -/
def executor.stop (s : executor) : executor :=
  { s with is_running_ := false, normal := s.normal ++ [entry.noop] }

/-- The method `executor::size`. -/
def executor.size (s : executor) : Nat :=
  s.normal.length + s.high.length

/-- The method `executor::is_running`. -/
def executor.is_running (s : executor) : Bool :=
  s.is_running_

/-- The method `executor::begin_invoke`: throws `invalid_operation` when the
executor is not running; otherwise pushes the task on the queue of its
priority and, for a priority other than normal, a `nullptr` on the normal queue. -/
def begin_invoke (f : Nat) (priority : task_priority) (s : executor) :
    Except exception executor :=
  if !s.is_running_ then
    .error (.invalid_operation (some "executor not running."))
  else
    let s1 := s.push priority (.task f)
    if priority != .normal_priority then
      .ok (s1.push .normal_priority .null)
    else
      .ok s1

/-- The `begin_invoke` calls of a running function body, in order; the first
one that throws ends the body with that exception. -/
def call_submits : List (task_priority × Nat) → executor → Except exception Unit × executor
  | [], s => (.ok (), s)
  | (p, g) :: rest, s =>
    match begin_invoke g p s with
    | .error e => (.error e, s)
    | .ok s1 => call_submits rest s1

/-- Calling function `f` on the worker thread: its submissions, then its result. -/
def call (prog : program) (f : Nat) (s : executor) : Except exception Nat × executor :=
  match call_submits (prog f).submits s with
  | (.error e, s1) => (.error e, s1)
  | (.ok (), s1) =>
    match (prog f).result with
    | .error c => (.error (.user c), s1)
    | .ok v => (.ok v, s1)

/-- The statement `if(func) func();` of `yield` for a queue entry: a task
lambda runs its packaged task and swallows what it throws, the empty lambda
does nothing, a `nullptr` is not called.  Returns the new state and the
functions that were executed. -/
def entry.run (prog : program) : entry → executor → executor × List Nat
  | .task f, s => ((call prog f s).2, [f])
  | .noop, s => (s, [])
  | .null, s => (s, [])

/-- The loop `while(execution_queue_[high_priority].try_pop(func2)) ...` of
`yield`.  `none` when the loop has not ended after `fuel` iterations. -/
def drain (prog : program) : Nat → executor → Option (executor × List Nat)
  | fuel, s =>
    match s.high with
    | [] => some (s, [])
    | e :: rest =>
      match fuel with
      | 0 => none
      | fuel + 1 =>
        let r := e.run prog { s with high := rest }
        match drain prog fuel r.1 with
        | none => none
        | some (s2, t) => some (s2, r.2 ++ t)

/-- How a call of `yield` ends. -/
inductive yield_result
  | raised (e : exception)
  | blocked
  | unfinished
  | returned (s : executor) (trace : List Nat)
  deriving DecidableEq, Repr

/-- The method `executor::yield`.  Off the worker thread it throws; on an
empty normal queue the blocking `pop` waits (`blocked`); otherwise it pops the
head of the normal queue, drains the high queue and runs the popped entry. -/
def yield (prog : program) (fuel : Nat) (on_worker : Bool) (s : executor) : yield_result :=
  if !on_worker then
    .raised (.invalid_operation (some "Executor can only yield inside of thread context."))
  else
    match s.normal with
    | [] => .blocked
    | func :: rest =>
      match drain prog fuel { s with normal := rest } with
      | none => .unfinished
      | some (s1, t) =>
        let r := func.run prog s1
        .returned r.1 (t ++ r.2)

/-- How a call of `invoke` ends: the function returned a value, it threw, or
the caller is left waiting on the future of the task it has just queued
(`begin_invoke(...).get()` off the worker thread). -/
inductive invoke_result
  | returned (v : Nat) (s : executor)
  | raised (e : exception) (s : executor)
  | waiting (s : executor)
  deriving DecidableEq, Repr

/-- The method `executor::invoke`. -/
def invoke (prog : program) (on_worker : Bool) (f : Nat) (priority : task_priority)
    (s : executor) : invoke_result :=
  if on_worker then
    match call prog f s with
    | (.ok v, s1) => .returned v s1
    | (.error e, s1) => .raised e s1
  else
    match begin_invoke f priority s with
    | .error e => .raised e s
    | .ok s1 => .waiting s1

/-- The functions that a queue entry executes when it is run. -/
def entry.funcs : entry → List Nat
  | .task f => [f]
  | .noop => []
  | .null => []

/-- The high priority submissions of a function body, as queue entries. -/
def high_submits (b : func_body) : List entry :=
  (b.submits.filter (fun x => x.1 = task_priority.high_priority)).map (fun x => entry.task x.2)

/-- One entry of the normal queue per submission of a function body: the task
itself for a normal priority submission, the `nullptr` for a high priority one. -/
def normal_pushes (b : func_body) : List entry :=
  b.submits.map (fun x =>
    match x.1 with
    | .high_priority => entry.null
    | .normal_priority => entry.task x.2)

/-- The queue entries that running an entry adds to the high queue of a running executor. -/
def entry.high_out (prog : program) : entry → List entry
  | .task f => high_submits (prog f)
  | .noop => []
  | .null => []

/-- The queue entries that running an entry adds to the normal queue of a running executor. -/
def entry.normal_out (prog : program) : entry → List entry
  | .task f => normal_pushes (prog f)
  | .noop => []
  | .null => []

/-- Weight of a queue entry under a weight `w` of the functions. -/
def entry.weight (w : Nat → Nat) : entry → Nat
  | .task f => w f + 1
  | .noop => 1
  | .null => 1

/-- Weight of a queue: the sum of the weights of its entries. -/
def queue_weight (w : Nat → Nat) (q : List entry) : Nat :=
  (q.map (entry.weight w)).sum

/-- The functions executed when the entries of a queue are run one after the other. -/
def queue_funcs (q : List entry) : List Nat :=
  (q.map entry.funcs).flatten

/-- High priority submissions are well founded: `w` bounds, for every
function, the weight of the high priority tasks it submits.  Under this
condition the drain loop of `yield` ends. -/
def submits_bounded (prog : program) (w : Nat → Nat) : Prop :=
  ∀ f, queue_weight w (high_submits (prog f)) ≤ w f

/-- The C++ class of an exception: what a `catch` clause can tell apart. -/
inductive exception_class
  | invalid_operation
  | task_already_started
  | other
  deriving DecidableEq, Repr

/-- The class of an exception value; the `msg_info` text does not change it. -/
def exception.cls : exception → exception_class
  | .invalid_operation _ => .invalid_operation
  | .task_already_started => .task_already_started
  | .user _ => .other

/-- Modelled from the spec: the error kinds of its taxonomy (section 7), which
`common/except.h`, not part of the sources, would have to provide as classes. -/
inductive error_kind
  | NotRunningError
  | InvalidOperationError
  | ProducerFault
  | TaskAlreadyClaimed
  deriving DecidableEq, Repr

/-- An example program: function 1 submits function 2 at high priority;
function 3 submits 4 at high and 5 at normal priority and then throws;
function 6 submits itself at high priority; the others submit nothing. -/
def demo_prog : program := fun f =>
  if f = 1 then { submits := [(.high_priority, 2)], result := .ok 10 }
  else if f = 3 then
    { submits := [(.high_priority, 4), (.normal_priority, 5)], result := .error 7 }
  else if f = 6 then { submits := [(.high_priority, 6)], result := .ok 0 }
  else { submits := [], result := .ok f }

/-- The example program without the self-submitting function 6. -/
def demo_prog_wf : program := fun f =>
  if f = 6 then { submits := [], result := .ok 0 } else demo_prog f

/-- A weight that bounds the high priority submissions of `demo_prog_wf`. -/
def demo_weight : Nat → Nat := fun f => if f = 1 ∨ f = 3 then 1 else 0

/-- An example state: running, task 3 waiting in the high queue, task 1 and
then task 8 in the normal queue. -/
def demo_state : executor :=
  { is_running_ := true, high := [.task 3], normal := [.task 1, .task 8] }

/-- A step of an interleaving: a submission from some thread, or one `yield` of the worker. -/
inductive step
  | submit (f : Nat) (priority : task_priority)
  | yield
  deriving DecidableEq, Repr

/-- Runs an interleaving from a state.  A submission that is refused leaves
the state as it is; a `yield` that cannot complete (empty normal queue, or
fuel exhausted) ends the run with `none`.  Returns the state and the
functions executed, in order. -/
def exec (prog : program) (fuel : Nat) : List step → executor → Option (executor × List Nat)
  | [], s => some (s, [])
  | .submit f p :: rest, s =>
    match begin_invoke f p s with
    | .error _ => exec prog fuel rest s
    | .ok s1 => exec prog fuel rest s1
  | .yield :: rest, s =>
    match yield prog fuel true s with
    | .returned s1 t =>
      match exec prog fuel rest s1 with
      | none => none
      | some (s2, t2) => some (s2, t ++ t2)
    | _ => none

/-! ## Definitions: `core/producer/layer.cpp`

Producers are shared objects: the layer holds pointers (numbers), and the
internal state of every producer object lives in a heap `Nat → σ`.  What the
virtual methods of a producer do to such a state is given by `producer_ops`.
-/

/-- Two's complement wrap-around to 64 bits: `static_cast<int64_t>`, and the
result of `int64_t` arithmetic while it does not overflow.  Signed overflow is
undefined in the code; outside the range of `int64_t` the wrapped value is a
choice of the embedding. -/
def wrap64 (x : Int) : Int :=
  (x + 2 ^ 63) % 2 ^ 64 - 2 ^ 63

/-- Frames as far as the layer tells them apart: `draw_frame::empty()`,
`draw_frame::late()`, a frame with content, and `draw_frame::silence(f)`. -/
inductive draw_frame
  | empty
  | late
  | picture (n : Nat)
  | silence (f : draw_frame)
  deriving DecidableEq, Repr

/-- The virtual methods of `frame_producer` that the layer calls, on the
internal state of a producer object.  `receive` advances the state and yields
a frame or throws (`error`); `last_frame` and `nb_frames` are `const` and
yield a value or throw; `set_leading_producer` stores a pointer. -/
structure producer_ops (σ : Type) where
  receive : σ → Int → Except Nat draw_frame × σ
  last_frame : σ → Except Nat draw_frame
  nb_frames : σ → Except Nat Int
  set_leading_producer : σ → Nat → σ

/-- The pointer `frame_producer::empty()` of the well-known empty producer. -/
def frame_producer.empty : Nat := 0

/-- Modelled from the spec: `receive_and_follow` is declared in
`frame_producer.h`, which is not part of the sources; following the spec it
pulls the next frame from the producer, whose object changes state and stays
the same object. -/
def receive_and_follow {σ : Type} (ops : producer_ops σ) (h : Nat → σ) (p : Nat)
    (flags : Int) : Except Nat draw_frame × (Nat → σ) :=
  ((ops.receive (h p) flags).1, Function.update h p (ops.receive (h p) flags).2)

/-- The fields of `layer::impl`. -/
structure layer where
  foreground_ : Nat
  background_ : Nat
  frame_number_ : Int
  auto_play_delta_ : Option Int
  is_paused_ : Bool
  deriving DecidableEq, Repr

/-- The constructor `layer::impl::impl`. -/
def layer.create : layer :=
  { foreground_ := frame_producer.empty, background_ := frame_producer.empty,
    frame_number_ := 0, auto_play_delta_ := none, is_paused_ := false }

/-- The method `layer::impl::pause`. -/
def layer.pause (l : layer) : layer :=
  { l with is_paused_ := true }

/-- The method `layer::impl::resume`. -/
def layer.resume (l : layer) : layer :=
  { l with is_paused_ := false }

/-- The method `layer::impl::play`. -/
def layer.play {σ : Type} (ops : producer_ops σ) (l : layer) (h : Nat → σ) :
    layer × (Nat → σ) :=
  if l.background_ ≠ frame_producer.empty then
    ({ l with
        foreground_ := l.background_,
        background_ := frame_producer.empty,
        frame_number_ := 0,
        auto_play_delta_ := none }.resume,
      Function.update h l.background_
        (ops.set_leading_producer (h l.background_) l.foreground_))
  else
    (l.resume, h)

/-- The method `layer::impl::load`. -/
def layer.load {σ : Type} (ops : producer_ops σ) (producer : Nat)
    (auto_play_delta : Option Int) (l : layer) (h : Nat → σ) : layer × (Nat → σ) :=
  let l1 := { l with background_ := producer, auto_play_delta_ := auto_play_delta }
  if l1.auto_play_delta_.isSome ∧ l1.foreground_ = frame_producer.empty then
    l1.play ops h
  else
    (l1, h)

/-- The method `layer::impl::stop`. -/
def layer.stop (l : layer) : layer :=
  { l with
    foreground_ := frame_producer.empty,
    frame_number_ := 0,
    auto_play_delta_ := none }.pause

/-- What `receive` does, as seen from outside: calls on producers, the call of
`play` from the auto-play branch, and an exception caught by its handler. -/
inductive event
  | pull (p : Nat)
  | last_frame (p : Nat)
  | nb_frames (p : Nat)
  | play
  | fault (code : Nat)
  deriving DecidableEq, Repr

/-- The end of the `try` block of `receive`: the frame returned or the
exception thrown, and the layer, the heap and the events at that point. -/
structure attempt (σ : Type) where
  outcome : Except Nat draw_frame
  l : layer
  heap : Nat → σ
  log : List event

/-- The result of `receive`: the frame, and the layer, heap and events after the call. -/
structure receive_result (σ : Type) where
  frame : draw_frame
  l : layer
  heap : Nat → σ
  log : List event

/-- The handler `catch(...)` of `receive`: on an exception, `stop()` and the empty frame. -/
def layer.catch_all {σ : Type} (a : attempt σ) : receive_result σ :=
  match a.outcome with
  | .ok f => { frame := f, l := a.l, heap := a.heap, log := a.log }
  | .error c =>
    { frame := draw_frame.empty, l := a.l.stop, heap := a.heap, log := a.log ++ [event.fault c] }

/-- The value `frames_left` computed by `receive` from `nb_frames()`, the
incremented frame number and the auto-play delta: the difference
`nb_frames - frame_number - delta` in `int64_t`.  Where a step of it overflows
the code is undefined; `frames_left_eq` gives the value where none does. -/
def frames_left (nb_frames frame_number delta : Int) : Int :=
  wrap64 (wrap64 (wrap64 nb_frames - frame_number) - wrap64 delta)

/-- The `try` block of `receive`; `retry` stands for the nested call
`receive(flags)` of the auto-play branch. -/
def layer.try_block {σ : Type} (ops : producer_ops σ)
    (retry : layer → (Nat → σ) → Option (receive_result σ)) (flags : Int) (l : layer)
    (h : Nat → σ) : Option (attempt σ) :=
  let fg := l.foreground_
  if l.is_paused_ then
    some { outcome := (ops.last_frame (h fg)).map draw_frame.silence,
           l := l, heap := h, log := [.last_frame fg] }
  else
    match receive_and_follow ops h fg flags with
    | (.error c, h1) => some { outcome := .error c, l := l, heap := h1, log := [.pull fg] }
    | (.ok frame, h1) =>
      if frame = draw_frame.late then
        some { outcome := (ops.last_frame (h1 fg)).map draw_frame.silence,
               l := l, heap := h1, log := [.pull fg, .last_frame fg] }
      else
        match l.auto_play_delta_ with
        | none => some { outcome := .ok frame, l := l, heap := h1, log := [.pull fg] }
        | some d =>
          let l1 := { l with frame_number_ := wrap64 (l.frame_number_ + 1) }
          match ops.nb_frames (h1 fg) with
          | .error c =>
            some { outcome := .error c, l := l1, heap := h1, log := [.pull fg, .nb_frames fg] }
          | .ok nb =>
            if frames_left nb l1.frame_number_ d < 1 then
              match retry (l1.play ops h1).1 (l1.play ops h1).2 with
              | none => none
              | some r =>
                some { outcome := .ok r.frame, l := r.l, heap := r.heap,
                       log := [.pull fg, .nb_frames fg, .play] ++ r.log }
            else
              some { outcome := .ok frame, l := l1, heap := h1,
                     log := [.pull fg, .nb_frames fg] }

/-- The method `layer::impl::receive`; `none` when the nesting of retries
exceeds `fuel`. -/
def layer.receive {σ : Type} (ops : producer_ops σ) :
    Nat → Int → layer → (Nat → σ) → Option (receive_result σ)
  | 0, _, _, _ => none
  | fuel + 1, flags, l, h =>
    (layer.try_block ops (fun l1 h1 => layer.receive ops fuel flags l1 h1) flags l h).map
      layer.catch_all

/-- Successive calls of `receive`, each with retry depth at most `fuel`; the
layer and heap after the last call, and all events. -/
def layer.receive_n {σ : Type} (ops : producer_ops σ) (fuel : Nat) (flags : Int) :
    Nat → layer → (Nat → σ) → Option (layer × (Nat → σ) × List event)
  | 0, l, h => some (l, h, [])
  | m + 1, l, h =>
    match layer.receive ops fuel flags l h with
    | none => none
    | some r =>
      match layer.receive_n ops fuel flags m r.l r.heap with
      | none => none
      | some (l2, h2, lg) => some (l2, h2, r.log ++ lg)

/-- The frame number after `i` increments `++frame_number_`, starting from `k`. -/
def frame_number_after (k : Int) (i : Nat) : Int :=
  (fun x => wrap64 (x + 1))^[i] k

/-- The `status` entry of the tree built by `layer::impl::info`. -/
def layer.info_status (l : layer) : String :=
  if l.is_paused_ then "paused"
  else if l.foreground_ = frame_producer.empty then "stopped"
  else "playing"

/-- An example producer behaviour: the state counts the frames delivered,
every pull delivers a picture, and the producer reports three frames. -/
def demo_ops : producer_ops Nat :=
  { receive := fun st _ => (.ok (.picture st), st + 1),
    last_frame := fun st => .ok (.picture st),
    nb_frames := fun _ => .ok 3,
    set_leading_producer := fun st _ => st }

/-- An example producer behaviour whose pulls throw once five frames are delivered. -/
def faulty_ops : producer_ops Nat :=
  { receive := fun st _ => if st < 5 then (.ok (.picture st), st + 1) else (.error 13, st),
    last_frame := fun st => .ok (.picture st),
    nb_frames := fun _ => .ok 3,
    set_leading_producer := fun st _ => st }

/-- An example heap: every producer object starts with no frame delivered. -/
def demo_heap : Nat → Nat := fun _ => 0

/-- An example producer behaviour that is never ready: every pull returns the
late marker, and the last frame is picture 7. -/
def late_ops : producer_ops Nat :=
  { receive := fun st _ => (.ok .late, st + 1),
    last_frame := fun _ => .ok (.picture 7),
    nb_frames := fun _ => .ok 3,
    set_leading_producer := fun st _ => st }

/-! ## Definitions: tasks, the worker loop and calls from other threads -/

/-- A `boost::packaged_task` as `create_task` builds it: the function it
wraps, whether it has been started, and the shared state of its future (the
value or the exception of the function once it has run). -/
structure packaged_task where
  func : Nat
  started : Bool
  future : Option (Except exception Nat)

/-- The task built by `create_task(func)`: not started, future not ready. -/
def create_task (f : Nat) : packaged_task :=
  { func := f, started := false, future := none }

/-- How running something on a task ends: what is thrown to the caller, the
task and the executor afterwards, and the functions executed. -/
structure task_run where
  outcome : Except exception Unit
  task : packaged_task
  s : executor
  trace : List Nat

/-- The call operator of `boost::packaged_task`: a task that has been started
throws `task_already_started`; otherwise the task is marked started, the
function is called, and its value or exception goes to the future. -/
def packaged_task.run (prog : program) (t : packaged_task) (s : executor) : task_run :=
  if t.started then
    { outcome := .error .task_already_started, task := t, s := s, trace := [] }
  else
    { outcome := .ok (),
      task := { t with started := true, future := some (call prog t.func s).1 },
      s := (call prog t.func s).2,
      trace := [t.func] }

/-- The wait callback that `create_task` sets on the task: on the worker
thread it runs the task, swallowing `task_already_started`; on another thread
it does nothing. -/
def wait_callback (prog : program) (on_worker : Bool) (t : packaged_task) (s : executor) :
    task_run :=
  if on_worker then
    match (t.run prog s).outcome with
    | .error .task_already_started => { t.run prog s with outcome := .ok () }
    | _ => t.run prog s
  else
    { outcome := .ok (), task := t, s := s, trace := [] }

/-- The lambda that `begin_invoke` pushes on a queue: it runs the task,
swallowing `task_already_started` and logging anything else that is thrown. -/
def queued_lambda (prog : program) (t : packaged_task) (s : executor) : task_run :=
  match (t.run prog s).outcome with
  | .error .task_already_started => { t.run prog s with outcome := .ok () }
  | .error _ => { t.run prog s with outcome := .ok () }
  | .ok _ => t.run prog s

/-- A call on the executor from a thread other than the worker. -/
inductive request
  | begin_invoke (f : Nat) (priority : task_priority)
  | stop
  | clear
  deriving DecidableEq, Repr

/-- The state after a call from another thread; a `begin_invoke` that throws
leaves the state as it is. -/
def request.apply : request → executor → executor
  | .begin_invoke f p, s =>
    match caspar.begin_invoke f p s with
    | .ok s1 => s1
    | .error _ => s
  | .stop, s => s.stop
  | .clear, s => s.clear

/-- The state after a list of calls from other threads, in order. -/
def apply_requests : List request → executor → executor
  | [], s => s
  | r :: rest, s => apply_requests rest (r.apply s)

/-- A step of the executor: a call from another thread, or a `yield` of the worker. -/
inductive action
  | call (r : request)
  | yield
  deriving DecidableEq, Repr

/-- Runs a sequence of steps.  A `yield` that does not return (empty normal
queue, or fuel exhausted) ends the run with `none`.  Returns the state and
the functions executed, in order. -/
def run_actions (prog : program) (fuel : Nat) :
    List action → executor → Option (executor × List Nat)
  | [], s => some (s, [])
  | .call r :: rest, s => run_actions prog fuel rest (r.apply s)
  | .yield :: rest, s =>
    match yield prog fuel true s with
    | .returned s1 t =>
      match run_actions prog fuel rest s1 with
      | none => none
      | some (s2, t2) => some (s2, t ++ t2)
    | _ => none

/-- How far the worker loop has come when its schedule is over. -/
inductive run_result
  | exited (s : executor) (trace : List Nat)
  | pending (in_pop : Bool) (s : executor) (trace : List Nat)
  | unfinished
  deriving DecidableEq, Repr

/-- The method `executor::run`, the loop `while(is_running_) yield();` with
its `catch(...)`, against a schedule: before each step of the worker the
calls that other threads have made meanwhile are applied.  `in_pop` tells
whether the worker is inside the blocking `pop` of `yield` (then the loop
condition is not tested before the `pop` has returned). -/
def run (prog : program) (fuel : Nat) :
    List (List request) → Bool → executor → List Nat → run_result
  | [], in_pop, s, tr => .pending in_pop s tr
  | reqs :: rest, in_pop, s, tr =>
    if in_pop = false ∧ (apply_requests reqs s).is_running_ = false then
      .exited (apply_requests reqs s) tr
    else
      match yield prog fuel true (apply_requests reqs s) with
      | .returned s2 t => run prog fuel rest false s2 (tr ++ t)
      | .blocked => run prog fuel rest true (apply_requests reqs s) tr
      | .raised _ => run prog fuel rest false (apply_requests reqs s) tr
      | .unfinished => .unfinished

namespace monitor

/-- The class `path`: its string `str_`. -/
structure path where
  str_ : List Char
  deriving DecidableEq, Repr

/-- The constructor `path(std::string)`. -/
def path.of (s : String) : path :=
  { str_ := s.toList }

/-- The template `path::operator%=` (and with it `operator%`) on a value
whose `lexical_cast<std::string>` is `str`: nothing for the empty string,
otherwise `str` is appended, after a "/" when it does not start with one. -/
def path.append (p : path) (str : List Char) : path :=
  match str with
  | [] => p
  | c :: cs => { str_ := p.str_ ++ ((if c ≠ '/' then ['/'] else []) ++ (c :: cs)) }

/-- Modelled from the spec: `path::empty` is defined in `monitor.cpp`, which
is not part of the sources; a path is "empty by default", when it has no
segment. -/
def path.empty (p : path) : Bool :=
  p.str_.isEmpty

/-- Modelled from the spec: `path::operator%=(path)` is defined in
`monitor.cpp`, not part of the sources; a path is "segments joined by /", so
appending a path appends its string as a value is appended. -/
def path.append_path (p other : path) : path :=
  p.append other.str_

/-- The variant `param`, with floating point payloads named by a number. -/
inductive param
  | bool (b : Bool)
  | int32 (i : Int)
  | int64 (i : Int)
  | float (x : Nat)
  | double (x : Nat)
  | string (s : List Char)
  | bytes (b : List Int)
  | duration (x : Nat)
  deriving DecidableEq, Repr

/-- The class `event`: a path and an ordered list of parameters. -/
structure event where
  path_ : path
  params_ : List param
  deriving DecidableEq, Repr

/-- Modelled from the spec: `event::propagate` is defined in `monitor.cpp`,
not part of the sources; an event with path "/foo" propagated through the
scope "/bar" has path "/bar/foo": the given path with the path of the event
appended, and the parameters of the event. -/
def event.propagate (e : event) (p : path) : event :=
  { path_ := p.append_path e.path_, params_ := e.params_ }

/-- The class `basic_subject::impl`: its `path_`, and the subscribers held by
its `reactive::basic_subject_impl`. -/
structure basic_subject where
  path_ : path
  observers : List Nat
  deriving DecidableEq, Repr

/-- The event that `basic_subject::impl::on_next` hands on:
`path_.empty() ? e : e.propagate(path_)`. -/
def basic_subject.forwarded (sub : basic_subject) (e : event) : event :=
  if sub.path_.empty then e else e.propagate sub.path_

/-- The method `basic_subject::impl::on_next`: the forwarded event goes to
every subscriber (the publish-subscribe channel of the spec), in the order of
subscription.  Returns the deliveries. -/
def basic_subject.on_next (sub : basic_subject) (e : event) : List (Nat × event) :=
  sub.observers.map (fun o => (o, sub.forwarded e))

/-- Modelled from the spec: the accessor `path::str` is defined in
`monitor.cpp`, not part of the sources; it returns the string of the path. -/
def path.str (p : path) : List Char :=
  p.str_

/-- The overload `path::operator%=(const char*)`: `*this %= std::string(value)`. -/
def path.append_cstr (p : path) (value : String) : path :=
  p.append value.toList

/-- The free template `operator%`: `std::move(path %= value)` on its own copy
of the path. -/
def path.percent (p : path) (value : List Char) : path :=
  p.append value

end monitor

/-! ## Definitions: `core/producer/stage.h`

Only the declarations of `stage` are part of the sources; its transform
schedule is modelled from the data model of the spec. -/

/-- Modelled from the spec: `stage.cpp` is not part of the sources; a
TransformSpec is a target transform (named by a number), a duration in ticks
and an easing identifier. -/
structure transform_spec where
  target : Nat
  duration : Nat
  easing : String
  deriving DecidableEq, Repr

/-- Modelled from the spec: an animation scheduled in the `transforms` of a
Stage, which are "stored per layer index": the layer index, the
TransformSpec, and the ticks it has been advanced by. -/
structure scheduled where
  index : Int
  spec : transform_spec
  elapsed : Nat
  deriving DecidableEq, Repr

/-- Modelled from the spec: `stage::apply_transform(index, transform,
mix_duration, tween)`, not part of the sources, "schedules/replaces the
in-flight animated transform for index": "a newly scheduled transform on an
index with one already in flight replaces it rather than queuing both". -/
def apply_transform (index : Int) (transform : Nat) (mix_duration : Nat) (tween : String)
    (transforms : List scheduled) : List scheduled :=
  { index := index,
    spec := { target := transform, duration := mix_duration, easing := tween },
    elapsed := 0 } :: transforms.filter (fun a => a.index ≠ index)

/-- Modelled from the spec: the transform part of a tick of the Stage, not
part of the sources: "advance any scheduled TransformSpec by one step
(removing it on completion)". -/
def tick_transforms (transforms : List scheduled) : List scheduled :=
  (transforms.map (fun a => { a with elapsed := a.elapsed + 1 })).filter
    (fun a => a.elapsed < a.spec.duration)

/-- Modelled from the spec: `stage::clear_transforms(index)`, not part of the
sources, "removes scheduled animation(s)" of the index. -/
def clear_transforms (index : Int) (transforms : List scheduled) : List scheduled :=
  transforms.filter (fun a => a.index ≠ index)

/-- The animations scheduled for a layer index. -/
def scheduled_for (index : Int) (transforms : List scheduled) : List scheduled :=
  transforms.filter (fun a => a.index = index)

/-! ## Definitions: the capacity of the normal queue -/

/-- The call `try_push(e)` on the normal queue, whose capacity has been set
to `capacity` by `set_capacity`: it pushes nothing when the queue is full. -/
def executor.try_push_normal (capacity : Nat) (e : entry) (s : executor) : executor :=
  if s.normal.length < capacity then { s with normal := s.normal ++ [e] } else s

/-- The method `executor::stop` for a normal queue of the given capacity:
clears the flag, then `try_push([]{})` on the normal queue. -/
def executor.stop_bounded (capacity : Nat) (s : executor) : executor :=
  executor.try_push_normal capacity entry.noop { s with is_running_ := false }

/-! ## Definitions: the order of the drain, after the words of the spec -/

/-- The order in which the spec has `yield` run the high queue: "run every
pending high-priority task, in FIFO order, to exhaustion".  The head of the
queue runs first, and what it submits at high priority joins the tail.  A
function of the queue alone; `none` when the queue is not exhausted after
`fuel` entries. -/
def fifo_order (prog : program) : Nat → List entry → Option (List Nat)
  | fuel, q =>
    match q with
    | [] => some []
    | e :: rest =>
      match fuel with
      | 0 => none
      | fuel + 1 =>
        match fifo_order prog fuel (rest ++ e.high_out prog) with
        | none => none
        | some t => some (e.funcs ++ t)

/-- The entries that the functions of a trace push on the normal queue of a
running executor, in the order of the trace. -/
def pushed_normal (prog : program) (t : List Nat) : List entry :=
  (t.map (fun f => normal_pushes (prog f))).flatten

/-- An example producer behaviour whose `last_frame` and `nb_frames` throw:
the first pull is late, the later ones deliver a picture. -/
def broken_ops : producer_ops Nat :=
  { receive := fun st _ => if st = 0 then (.ok .late, 1) else (.ok (.picture st), st + 1),
    last_frame := fun _ => .error 21,
    nb_frames := fun _ => .error 22,
    set_leading_producer := fun st _ => st }

/-- The values of `int64_t`.  Signed overflow is undefined in the code: what
`receive` computes is determined only while every intermediate value of its
arithmetic lies in this range. -/
def int64_range (x : Int) : Prop :=
  -2 ^ 63 ≤ x ∧ x < 2 ^ 63

instance (x : Int) : Decidable (int64_range x) := by
  unfold int64_range
  infer_instance

/-! ## Definitions: tasks whose functions wait on futures

The queue entries of `entry.run` are tasks that nobody waits for.  Here a
function that runs on the worker thread may also call `get()` on the future
of a task of its own executor, which hands the task to its wait callback
while the lambda of the same task is still in a queue.  A task is named by
its number in the order of creation, a queue entry `entry.task id` is the
lambda around task `id`, and the state that a `boost::packaged_task` shares
with its copies and with its future is kept in a table by task number.  From
the library the embedding takes what `executor.h` relies on: the call
operator of a task that has been started throws `task_already_started`, and
otherwise marks the task started, calls the function and stores its value or
exception in the future; `get()` on a future that is not ready calls the wait
callback with the task of that future, then waits until the future is ready,
and returns the value or throws the stored exception.
-/

/-- A statement of a function that uses its own executor: a call of
`begin_invoke`, or `get()` on the future of the task with number `id`. -/
inductive stmt
  | begin_invoke (g : Nat) (priority : task_priority)
  | get (id : Nat)
  deriving DecidableEq, Repr

/-- What a function does when it is called: its statements, in order, and
then the value it returns or the code of the exception it throws; a statement
that throws ends the function with that exception. -/
structure task_body where
  stmts : List stmt
  result : Except Nat Nat

/-- The behaviour of every function object, by its number. -/
abbrev task_program := Nat → task_body

/-- An executor together with the tasks that `begin_invoke` has created, in
the order of creation. -/
structure task_executor where
  ex : executor
  tasks : List packaged_task

/-- How a piece of code run by the worker ends: it returns, it throws, or the
worker waits on a future that cannot become ready any more. -/
inductive ending
  | returned
  | threw (e : exception)
  | deadlock
  deriving DecidableEq, Repr

/-- The result of running a piece of code on the worker: how it ends, the
state afterwards, and the tasks whose function has been called, in order. -/
structure claim_result where
  ending : ending
  st : task_executor
  trace : List Nat

/-- Whether task `id` has been started. -/
def task_executor.started (st : task_executor) (id : Nat) : Bool :=
  match st.tasks[id]? with
  | some t => t.started
  | none => false

/-- The shared state of the future of task `id`. -/
def task_executor.future (st : task_executor) (id : Nat) : Option (Except exception Nat) :=
  match st.tasks[id]? with
  | some t => t.future
  | none => none

/-- Marks task `id` as started. -/
def task_executor.set_started (st : task_executor) (id : Nat) : task_executor :=
  match st.tasks[id]? with
  | some t => { st with tasks := st.tasks.set id { t with started := true } }
  | none => st

/-- Makes the future of task `id` ready. -/
def task_executor.set_future (st : task_executor) (id : Nat) (v : Except exception Nat) :
    task_executor :=
  match st.tasks[id]? with
  | some t => { st with tasks := st.tasks.set id { t with future := some v } }
  | none => st

/-- The method `executor::begin_invoke` with the task it creates: the task
gets the next number, and its lambda is pushed as in `begin_invoke`. -/
def task_executor.begin_invoke (f : Nat) (priority : task_priority) (st : task_executor) :
    Except exception task_executor :=
  match caspar.begin_invoke st.tasks.length priority st.ex with
  | .error e => .error e
  | .ok ex1 => .ok { ex := ex1, tasks := st.tasks ++ [create_task f] }

/-- The wait callback that `create_task` sets on the task: on the worker
thread it runs the task, swallowing `task_already_started`; on another thread
it does nothing.  `run` is the call operator of the task. -/
def task_executor.wait_callback (run : Nat → task_executor → Option claim_result)
    (on_worker : Bool) (id : Nat) (st : task_executor) : Option claim_result :=
  if on_worker then
    match run id st with
    | none => none
    | some r =>
      match r.ending with
      | .threw .task_already_started => some { r with ending := .returned }
      | _ => some r
  else
    some { ending := .returned, st := st, trace := [] }

/-- The lambda that `begin_invoke` pushes on a queue: it runs the task,
swallowing `task_already_started` and logging anything else that is thrown. -/
def task_executor.queued_lambda (run : Nat → task_executor → Option claim_result)
    (id : Nat) (st : task_executor) : Option claim_result :=
  match run id st with
  | none => none
  | some r =>
    match r.ending with
    | .threw .task_already_started => some { r with ending := .returned }
    | .threw _ => some { r with ending := .returned }
    | _ => some r

/-- The call `get()` on the future of task `id`, on the worker thread: a
ready future gives its value or throws its exception; otherwise the wait
callback is called, and a future that is still not ready afterwards leaves
the worker waiting for itself. -/
def task_executor.future_get (run : Nat → task_executor → Option claim_result)
    (id : Nat) (st : task_executor) : Option claim_result :=
  match st.future id with
  | some (.ok _) => some { ending := .returned, st := st, trace := [] }
  | some (.error e) => some { ending := .threw e, st := st, trace := [] }
  | none =>
    match task_executor.wait_callback run true id st with
    | none => none
    | some r =>
      match r.ending with
      | .returned =>
        match r.st.future id with
        | some (.ok _) => some r
        | some (.error e) => some { r with ending := .threw e }
        | none => some { r with ending := .deadlock }
      | _ => some r

/-- The statements of a function, run on the worker thread. -/
def task_executor.run_body (run : Nat → task_executor → Option claim_result) :
    List stmt → task_executor → Option claim_result
  | [], st => some { ending := .returned, st := st, trace := [] }
  | .begin_invoke g p :: rest, st =>
    match st.begin_invoke g p with
    | .error e => some { ending := .threw e, st := st, trace := [] }
    | .ok st1 => task_executor.run_body run rest st1
  | .get id :: rest, st =>
    match task_executor.future_get run id st with
    | none => none
    | some r =>
      match r.ending with
      | .returned =>
        match task_executor.run_body run rest r.st with
        | none => none
        | some r2 => some { r2 with trace := r.trace ++ r2.trace }
      | _ => some r

/-- The call operator of the packaged task `id`, on the worker thread: a task
that has been started throws `task_already_started`; otherwise the task is
marked started, the function is called, and its value or exception goes to
the future.  `none` when the nesting of tasks run from wait callbacks exceeds
`fuel`; a number that names no task runs nothing. -/
def task_executor.run_task (prog : task_program) :
    Nat → Nat → task_executor → Option claim_result
  | 0, _, _ => none
  | fuel + 1, id, st =>
    match st.tasks[id]? with
    | none => some { ending := .returned, st := st, trace := [] }
    | some t =>
      if t.started then
        some { ending := .threw .task_already_started, st := st, trace := [] }
      else
        match task_executor.run_body (task_executor.run_task prog fuel) (prog t.func).stmts
            (st.set_started id) with
        | none => none
        | some r =>
          match r.ending with
          | .returned =>
            some { ending := .returned,
                   st := r.st.set_future id
                     (match (prog t.func).result with
                      | .ok v => .ok v
                      | .error c => .error (.user c)),
                   trace := id :: r.trace }
          | .threw e =>
            some { ending := .returned, st := r.st.set_future id (.error e),
                   trace := id :: r.trace }
          | .deadlock => some { r with trace := id :: r.trace }

/-- The statement `if(func) func();` of `yield` for a queue entry. -/
def task_executor.entry_run (prog : task_program) (fuel : Nat) :
    entry → task_executor → Option claim_result
  | .task id, st => task_executor.queued_lambda (task_executor.run_task prog fuel) id st
  | .noop, st => some { ending := .returned, st := st, trace := [] }
  | .null, st => some { ending := .returned, st := st, trace := [] }

/-- The loop `while(execution_queue_[high_priority].try_pop(func2)) ...` of
`yield`, for at most `n` iterations. -/
def task_executor.drain (prog : task_program) (fuel : Nat) :
    Nat → task_executor → Option claim_result
  | n, st =>
    match st.ex.high with
    | [] => some { ending := .returned, st := st, trace := [] }
    | e :: rest =>
      match n with
      | 0 => none
      | n + 1 =>
        match task_executor.entry_run prog fuel e
            { st with ex := { st.ex with high := rest } } with
        | none => none
        | some r =>
          match r.ending with
          | .returned =>
            match task_executor.drain prog fuel n r.st with
            | none => none
            | some r2 => some { r2 with trace := r.trace ++ r2.trace }
          | _ => some r

/-- How a call of `yield` ends. -/
inductive task_yield
  | raised (e : exception)
  | blocked
  | unfinished
  | ended (r : claim_result)

/-- The method `executor::yield` on tasks with state: as `yield`, each task
entry running the lambda around its task. -/
def task_executor.yield (prog : task_program) (fuel : Nat) (on_worker : Bool)
    (st : task_executor) : task_yield :=
  if !on_worker then
    .raised (.invalid_operation (some "Executor can only yield inside of thread context."))
  else
    match st.ex.normal with
    | [] => .blocked
    | func :: rest =>
      match task_executor.drain prog fuel fuel { st with ex := { st.ex with normal := rest } } with
      | none => .unfinished
      | some r1 =>
        match r1.ending with
        | .returned =>
          match task_executor.entry_run prog fuel func r1.st with
          | none => .unfinished
          | some r2 => .ended { r2 with trace := r1.trace ++ r2.trace }
        | _ => .ended r1

/-- A step of an executor with tasks: a call of `begin_invoke`, `stop` or
`clear` from any thread between two calls of `yield`, or one `yield` of the
worker. -/
inductive task_step
  | begin_invoke (f : Nat) (priority : task_priority)
  | stop
  | clear
  | yield
  deriving DecidableEq, Repr

/-- Runs a sequence of steps.  A `begin_invoke` that throws leaves the state
as it is; a `yield` that does not return (empty normal queue, or fuel
exhausted) ends the run with `none`; a worker that waits for itself makes no
further step. -/
def task_executor.exec (prog : task_program) (fuel : Nat) :
    List task_step → task_executor → Option claim_result
  | [], st => some { ending := .returned, st := st, trace := [] }
  | .begin_invoke f p :: rest, st =>
    match st.begin_invoke f p with
    | .error _ => task_executor.exec prog fuel rest st
    | .ok st1 => task_executor.exec prog fuel rest st1
  | .stop :: rest, st => task_executor.exec prog fuel rest { st with ex := st.ex.stop }
  | .clear :: rest, st => task_executor.exec prog fuel rest { st with ex := st.ex.clear }
  | .yield :: rest, st =>
    match task_executor.yield prog fuel true st with
    | .ended r =>
      match r.ending with
      | .returned =>
        match task_executor.exec prog fuel rest r.st with
        | none => none
        | some r2 => some { r2 with trace := r.trace ++ r2.trace }
      | _ => some r
    | _ => none

theorem call_submits_state (l : List (task_priority × Nat)) (s : executor) :
    (call_submits l s).2 =
      if s.is_running_ then
        { s with
          high := s.high ++ high_submits { submits := l, result := .ok 0 },
          normal := s.normal ++ normal_pushes { submits := l, result := .ok 0 } }
      else s := by
  induction l generalizing s with
  | nil => cases s; simp [call_submits, high_submits, normal_pushes]
  | cons x rest ih =>
    obtain ⟨p, g⟩ := x
    cases hr : s.is_running_
    · simp [call_submits, begin_invoke, hr]
    · cases p <;>
        simp [call_submits, begin_invoke, hr, ih, executor.push, high_submits, normal_pushes]

theorem call_state (prog : program) (f : Nat) (s : executor) :
    (call prog f s).2 = (call_submits (prog f).submits s).2 := by
  unfold call
  rcases h : call_submits (prog f).submits s with ⟨r, s1⟩
  cases r with
  | error e => rfl
  | ok u =>
    cases u
    cases (prog f).result <;> rfl

/-- Running a queue entry: the executed functions are those of the entry; a
running executor gets the entry's submissions appended to its queues, a
stopped one is left as it is. -/
theorem entry_run_eq (prog : program) (e : entry) (s : executor) :
    e.run prog s =
      (if s.is_running_ then
          { s with high := s.high ++ e.high_out prog, normal := s.normal ++ e.normal_out prog }
        else s, e.funcs) := by
  cases e with
  | task f =>
    simp only [entry.run, call_state, call_submits_state, entry.funcs, entry.high_out,
      entry.normal_out]
    rfl
  | noop => cases s; simp [entry.run, entry.funcs, entry.high_out, entry.normal_out]
  | null => cases s; simp [entry.run, entry.funcs, entry.high_out, entry.normal_out]

theorem queue_weight_append (w : Nat → Nat) (a b : List entry) :
    queue_weight w (a ++ b) = queue_weight w a + queue_weight w b := by
  simp [queue_weight]

theorem queue_funcs_append (a b : List entry) :
    queue_funcs (a ++ b) = queue_funcs a ++ queue_funcs b := by
  simp [queue_funcs]

theorem high_out_weight (prog : program) (w : Nat → Nat) (hw : submits_bounded prog w)
    (e : entry) : queue_weight w (e.high_out prog) < e.weight w := by
  cases e with
  | task f =>
    have := hw f
    simp only [entry.high_out, entry.weight]
    omega
  | noop => simp [entry.high_out, entry.weight, queue_weight]
  | null => simp [entry.high_out, entry.weight, queue_weight]

theorem drain_nil (prog : program) (fuel : Nat) (s : executor) (h : s.high = []) :
    drain prog fuel s = some (s, []) := by
  unfold drain
  simp only [h]

theorem drain_cons (prog : program) (fuel : Nat) (s : executor) (e : entry)
    (rest : List entry) (h : s.high = e :: rest) :
    drain prog (fuel + 1) s =
      (drain prog fuel (e.run prog { s with high := rest }).1).map
        (fun r => (r.1, (e.run prog { s with high := rest }).2 ++ r.2)) := by
  conv_lhs => unfold drain
  simp only [h]
  cases drain prog fuel (e.run prog { s with high := rest }).1 <;> rfl

theorem drain_cons_some (prog : program) (fuel : Nat) (s s1 : executor) (e : entry)
    (rest : List entry) (t : List Nat) (h : s.high = e :: rest)
    (hd : drain prog (fuel + 1) s = some (s1, t)) :
    ∃ t2, drain prog fuel (e.run prog { s with high := rest }).1 = some (s1, t2) ∧
      t = (e.run prog { s with high := rest }).2 ++ t2 := by
  rw [drain_cons prog fuel s e rest h] at hd
  cases hx : drain prog fuel (e.run prog { s with high := rest }).1 with
  | none => rw [hx] at hd; simp at hd
  | some r =>
    rw [hx] at hd
    simp only [Option.map, Option.some.injEq, Prod.mk.injEq] at hd
    obtain ⟨r1, r2⟩ := r
    simp only [] at hd
    exact ⟨r2, by rw [hd.1], hd.2.symm⟩

theorem entry_run_running (prog : program) (e : entry) (s : executor) :
    (e.run prog s).1.is_running_ = s.is_running_ := by
  rw [entry_run_eq]
  cases hr : s.is_running_ <;> simp [hr]

/-- The drain loop ends when the fuel covers the weight of the high queue. -/
theorem drain_ends (prog : program) (w : Nat → Nat) (hw : submits_bounded prog w) :
    ∀ (fuel : Nat) (s : executor), queue_weight w s.high ≤ fuel →
      ∃ r, drain prog fuel s = some r := by
  intro fuel
  induction fuel with
  | zero =>
    intro s hs
    cases hq : s.high with
    | nil => exact ⟨_, drain_nil prog _ s hq⟩
    | cons e rest =>
      rw [hq] at hs
      cases e <;> simp [queue_weight, entry.weight] at hs
  | succ n ih =>
    intro s hs
    cases hq : s.high with
    | nil => exact ⟨_, drain_nil prog _ s hq⟩
    | cons e rest =>
      rw [hq] at hs
      have hlt := high_out_weight prog w hw e
      have hcons : queue_weight w (e :: rest) = e.weight w + queue_weight w rest := by
        simp [queue_weight]
      rw [hcons] at hs
      obtain ⟨r, hr⟩ := ih (e.run prog { s with high := rest }).1 (by
        rw [entry_run_eq]
        cases s.is_running_
        · simp only [Bool.false_eq_true, if_false]; omega
        · simp only [if_true, queue_weight_append]; omega)
      exact ⟨_, by rw [drain_cons prog n s e rest hq, hr]; rfl⟩

/-- Whenever the drain loop ends: the high queue is empty, the normal queue
has only been appended to, and the trace starts with the functions of the
entries that were in the high queue, in queue order; on a stopped executor
the trace is exactly that and the normal queue is unchanged. -/
theorem drain_post (prog : program) :
    ∀ (fuel : Nat) (s s1 : executor) (t : List Nat), drain prog fuel s = some (s1, t) →
      s1.high = [] ∧ s.normal <+: s1.normal ∧ queue_funcs s.high <+: t ∧
        (s.is_running_ = false → t = queue_funcs s.high ∧ s1.normal = s.normal) := by
  intro fuel
  induction fuel with
  | zero =>
    intro s s1 t h
    obtain ⟨running, high, normal⟩ := s
    cases high with
    | nil =>
      rw [drain_nil prog _ _ rfl] at h
      simp only [Option.some.injEq, Prod.mk.injEq] at h
      obtain ⟨rfl, rfl⟩ := h
      simp [queue_funcs]
    | cons e rest => simp [drain] at h
  | succ n ih =>
    intro s s1 t h
    obtain ⟨running, high, normal⟩ := s
    cases high with
    | nil =>
      rw [drain_nil prog _ _ rfl] at h
      simp only [Option.some.injEq, Prod.mk.injEq] at h
      obtain ⟨rfl, rfl⟩ := h
      simp [queue_funcs]
    | cons e rest =>
      have hfun : queue_funcs (e :: rest) = e.funcs ++ queue_funcs rest := by
        simp [queue_funcs]
      obtain ⟨t2, hd, rfl⟩ := drain_cons_some prog n _ s1 e rest t rfl h
      rw [entry_run_eq] at hd ⊢
      obtain ⟨h1, h3, h4, h5⟩ := ih _ _ _ hd
      simp only [hfun]
      cases running with
      | false =>
        simp only [Bool.false_eq_true, if_false] at h3 h4 h5
        refine ⟨h1, h3, ( List.prefix_append_right_inj _).2 h4, ?_⟩
        intro _
        obtain ⟨h5a, h5b⟩ := h5 trivial
        exact ⟨by rw [h5a], h5b⟩
      | true =>
        simp only [if_true, queue_funcs_append] at h3 h4
        refine ⟨h1, ( List.prefix_append _ _).trans h3,
          ( List.prefix_append_right_inj _).2 (( List.prefix_append _ _).trans h4), ?_⟩
        intro hf
        simp at hf

/-- The drain loop of the code need not end: function 6 of the example
program submits itself at high priority each time it runs. -/
theorem drain_may_not_end :
    ∀ (fuel : Nat) (normal : List entry),
      drain demo_prog fuel ⟨true, [.task 6], normal⟩ = none := by
  intro fuel
  induction fuel with
  | zero => intro normal; rfl
  | succ n ih =>
    intro normal
    rw [drain_cons demo_prog n _ (.task 6) [] rfl, entry_run_eq]
    have := ih (normal ++ (entry.task 6).normal_out demo_prog)
    simp only [if_true, List.nil_append]
    have hout : (entry.task 6).high_out demo_prog = [.task 6] := by decide
    rw [hout, this]
    rfl

theorem high_out_funcs (prog : program) (e : entry) (f : Nat) (hf : f ∈ e.funcs) :
    e.high_out prog = high_submits (prog f) := by
  cases e <;> simp [entry.funcs] at hf
  subst hf
  rfl

theorem high_out_origin (prog : program) (e : entry) (g : Nat)
    (hg : g ∈ queue_funcs (e.high_out prog)) :
    ∃ f ∈ e.funcs, g ∈ queue_funcs (high_submits (prog f)) := by
  cases e with
  | task f => exact ⟨f, by simp [entry.funcs], hg⟩
  | noop => simp [entry.high_out, queue_funcs] at hg
  | null => simp [entry.high_out, queue_funcs] at hg

/-- What the drain loop executes, whenever it ends: every function of the
old high queue; on a running executor every high priority submission of an
executed function; and nothing else. -/
theorem drain_sound (prog : program) :
    ∀ (fuel : Nat) (s s1 : executor) (t : List Nat), drain prog fuel s = some (s1, t) →
      (s.is_running_ = true → ∀ f ∈ t, ∀ g ∈ queue_funcs (high_submits (prog f)), g ∈ t) ∧
      (∀ g ∈ t, g ∈ queue_funcs s.high ∨
        ∃ f ∈ t, g ∈ queue_funcs (high_submits (prog f))) ∧
      (∀ g ∈ queue_funcs s.high, g ∈ t) := by
  intro fuel
  induction fuel with
  | zero =>
    intro s s1 t h
    obtain ⟨running, high, normal⟩ := s
    cases high with
    | nil =>
      rw [drain_nil prog _ _ rfl] at h
      simp only [Option.some.injEq, Prod.mk.injEq] at h
      obtain ⟨_, rfl⟩ := h
      simp [queue_funcs]
    | cons e rest => simp [drain] at h
  | succ n ih =>
    intro s s1 t h
    obtain ⟨running, high, normal⟩ := s
    cases high with
    | nil =>
      rw [drain_nil prog _ _ rfl] at h
      simp only [Option.some.injEq, Prod.mk.injEq] at h
      obtain ⟨_, rfl⟩ := h
      simp [queue_funcs]
    | cons e rest =>
      have hfun : queue_funcs (e :: rest) = e.funcs ++ queue_funcs rest := by
        simp [queue_funcs]
      rw [drain_cons prog n _ e rest rfl, entry_run_eq] at h
      simp only [] at h
      rcases hd : drain prog n (if running = true then
          (⟨running, rest ++ e.high_out prog, normal ++ e.normal_out prog⟩ : executor)
        else ⟨running, rest, normal⟩) with _ | ⟨s2, t2⟩
      · rw [hd] at h; simp at h
      rw [hd] at h
      simp only [Option.map, Option.some.injEq, Prod.mk.injEq] at h
      obtain ⟨_, rfl⟩ := h
      obtain ⟨c1, c2, c3⟩ := ih _ _ _ hd
      simp only [hfun]
      cases running with
      | false =>
        simp only [Bool.false_eq_true, if_false] at hd c1 c2 c3
        refine ⟨by simp, ?_, ?_⟩
        · intro g hg
          rcases List.mem_append.1 hg with hg | hg
          · exact Or.inl (List.mem_append_left _ hg)
          · rcases c2 g hg with h | ⟨f, hf, h⟩
            · exact Or.inl (List.mem_append_right _ h)
            · exact Or.inr ⟨f, List.mem_append_right _ hf, h⟩
        · intro g hg
          rcases List.mem_append.1 hg with hg | hg
          · exact List.mem_append_left _ hg
          · exact List.mem_append_right _ (c3 g hg)
      | true =>
        simp only [if_true, queue_funcs_append] at hd c1 c2 c3
        refine ⟨?_, ?_, ?_⟩
        · intro _ f hf g hg
          rcases List.mem_append.1 hf with hf | hf
          · rw [← high_out_funcs prog e f hf] at hg
            exact List.mem_append_right _ (c3 g (List.mem_append_right _ hg))
          · exact List.mem_append_right _ (c1 trivial f hf g hg)
        · intro g hg
          rcases List.mem_append.1 hg with hg | hg
          · exact Or.inl (List.mem_append_left _ hg)
          · rcases c2 g hg with h | ⟨f, hf, h⟩
            · rcases List.mem_append.1 h with h | h
              · exact Or.inl (List.mem_append_right _ h)
              · obtain ⟨f, hf, h⟩ := high_out_origin prog e g h
                exact Or.inr ⟨f, List.mem_append_left _ hf, h⟩
            · exact Or.inr ⟨f, List.mem_append_right _ hf, h⟩
        · intro g hg
          rcases List.mem_append.1 hg with hg | hg
          · exact List.mem_append_left _ hg
          · exact List.mem_append_right _ (c3 g (List.mem_append_left _ hg))

theorem drain_running (prog : program) :
    ∀ (fuel : Nat) (s s1 : executor) (t : List Nat), drain prog fuel s = some (s1, t) →
      s1.is_running_ = s.is_running_ := by
  intro fuel
  induction fuel with
  | zero =>
    intro s s1 t h
    obtain ⟨running, high, normal⟩ := s
    cases high with
    | nil =>
      rw [drain_nil prog _ _ rfl] at h
      simp only [Option.some.injEq, Prod.mk.injEq] at h
      rw [← h.1]
    | cons e rest => simp [drain] at h
  | succ n ih =>
    intro s s1 t h
    obtain ⟨running, high, normal⟩ := s
    cases high with
    | nil =>
      rw [drain_nil prog _ _ rfl] at h
      simp only [Option.some.injEq, Prod.mk.injEq] at h
      rw [← h.1]
    | cons e rest =>
      obtain ⟨t2, hd, _⟩ := drain_cons_some prog n _ s1 e rest t rfl h
      rw [ih _ _ _ hd, entry_run_running]

theorem fifo_order_nil (prog : program) (fuel : Nat) : fifo_order prog fuel [] = some [] := by
  unfold fifo_order
  rfl

theorem fifo_order_cons (prog : program) (fuel : Nat) (e : entry) (rest : List entry) :
    fifo_order prog (fuel + 1) (e :: rest) =
      (fifo_order prog fuel (rest ++ e.high_out prog)).map (fun t => e.funcs ++ t) := by
  conv_lhs => unfold fifo_order
  simp only []
  cases fifo_order prog fuel (rest ++ e.high_out prog) <;> rfl

theorem pushed_normal_append (prog : program) (a b : List Nat) :
    pushed_normal prog (a ++ b) = pushed_normal prog a ++ pushed_normal prog b := by
  simp [pushed_normal]

theorem normal_out_pushed (prog : program) (e : entry) :
    e.normal_out prog = pushed_normal prog e.funcs := by
  cases e <;> simp [entry.normal_out, pushed_normal, entry.funcs]

/-- The drain loop on a running executor runs the high queue in the order of
the spec and appends to the normal queue what the executed functions push
there; on a stopped executor it runs the entries of the queue, each once, and
leaves the normal queue as it is. -/
theorem drain_exact (prog : program) :
    ∀ (fuel : Nat) (s s1 : executor) (t : List Nat), drain prog fuel s = some (s1, t) →
      (s.is_running_ = true →
        fifo_order prog fuel s.high = some t ∧
          s1 = ⟨true, [], s.normal ++ pushed_normal prog t⟩) ∧
      (s.is_running_ = false → t = queue_funcs s.high ∧ s1 = ⟨false, [], s.normal⟩) := by
  intro fuel
  induction fuel with
  | zero =>
    intro s s1 t h
    obtain ⟨running, high, normal⟩ := s
    cases high with
    | nil =>
      rw [drain_nil prog _ _ rfl] at h
      simp only [Option.some.injEq, Prod.mk.injEq] at h
      obtain ⟨rfl, rfl⟩ := h
      constructor
      · intro hr
        simp only [] at hr
        subst hr
        exact ⟨fifo_order_nil prog 0, by simp [pushed_normal]⟩
      · intro hr
        simp only [] at hr
        subst hr
        exact ⟨by simp [queue_funcs], rfl⟩
    | cons e rest => simp [drain] at h
  | succ n ih =>
    intro s s1 t h
    obtain ⟨running, high, normal⟩ := s
    cases high with
    | nil =>
      rw [drain_nil prog _ _ rfl] at h
      simp only [Option.some.injEq, Prod.mk.injEq] at h
      obtain ⟨rfl, rfl⟩ := h
      constructor
      · intro hr
        simp only [] at hr
        subst hr
        exact ⟨fifo_order_nil prog _, by simp [pushed_normal]⟩
      · intro hr
        simp only [] at hr
        subst hr
        exact ⟨by simp [queue_funcs], rfl⟩
    | cons e rest =>
      have hfun : queue_funcs (e :: rest) = e.funcs ++ queue_funcs rest := by
        simp [queue_funcs]
      obtain ⟨t2, hd, rfl⟩ := drain_cons_some prog n _ s1 e rest t rfl h
      rw [entry_run_eq] at hd ⊢
      obtain ⟨ih1, ih2⟩ := ih _ _ _ hd
      cases running with
      | false =>
        simp only [Bool.false_eq_true, if_false] at ih1 ih2 ⊢
        refine ⟨fun hf => by simp at hf, fun _ => ?_⟩
        obtain ⟨ha, hb⟩ := ih2 trivial
        exact ⟨by rw [ha, hfun], hb⟩
      | true =>
        simp only [if_true] at ih1 ih2 ⊢
        refine ⟨fun _ => ?_, fun hf => by simp at hf⟩
        obtain ⟨ha, hb⟩ := ih1 trivial
        refine ⟨by rw [fifo_order_cons, ha]; rfl, ?_⟩
        rw [hb, pushed_normal_append, normal_out_pushed, List.append_assoc]

/-- When no function of the queue submits at high priority, the order of the
spec is the queue itself: every entry once, in queue order. -/
theorem fifo_order_flat (prog : program) :
    ∀ (fuel : Nat) (q : List entry) (t : List Nat),
      (∀ f ∈ queue_funcs q, high_submits (prog f) = []) →
      fifo_order prog fuel q = some t → t = queue_funcs q := by
  intro fuel
  induction fuel with
  | zero =>
    intro q t _ h
    cases q with
    | nil =>
      rw [fifo_order_nil] at h
      simp only [Option.some.injEq] at h
      rw [← h]; rfl
    | cons e rest => simp [fifo_order] at h
  | succ n ih =>
    intro q t hflat h
    cases q with
    | nil =>
      rw [fifo_order_nil] at h
      simp only [Option.some.injEq] at h
      rw [← h]; rfl
    | cons e rest =>
      have hfun : queue_funcs (e :: rest) = e.funcs ++ queue_funcs rest := by
        simp [queue_funcs]
      have hout : e.high_out prog = [] := by
        cases e with
        | task f => exact hflat f (by simp [queue_funcs, entry.funcs])
        | noop => rfl
        | null => rfl
      rw [fifo_order_cons, hout, List.append_nil] at h
      cases hx : fifo_order prog n rest with
      | none => rw [hx] at h; simp at h
      | some t2 =>
        rw [hx] at h
        simp only [Option.map, Option.some.injEq] at h
        rw [← h, hfun, ih rest t2 (fun f hf => hflat f (by rw [hfun]; exact List.mem_append_right _ hf)) hx]

/-- On a running executor the drain loop ends whenever the order of the spec
is finite within the fuel. -/
theorem drain_of_fifo_order (prog : program) :
    ∀ (fuel : Nat) (high normal : List entry) (t : List Nat),
      fifo_order prog fuel high = some t →
        ∃ s1, drain prog fuel ⟨true, high, normal⟩ = some (s1, t) := by
  intro fuel
  induction fuel with
  | zero =>
    intro high normal t h
    cases high with
    | nil =>
      rw [fifo_order_nil] at h
      simp only [Option.some.injEq] at h
      exact ⟨_, by rw [drain_nil prog _ _ rfl, h]⟩
    | cons e rest => simp [fifo_order] at h
  | succ n ih =>
    intro high normal t h
    cases high with
    | nil =>
      rw [fifo_order_nil] at h
      simp only [Option.some.injEq] at h
      exact ⟨_, by rw [drain_nil prog _ _ rfl, h]⟩
    | cons e rest =>
      rw [fifo_order_cons] at h
      cases hx : fifo_order prog n (rest ++ e.high_out prog) with
      | none => rw [hx] at h; simp at h
      | some t2 =>
        rw [hx] at h
        simp only [Option.map, Option.some.injEq] at h
        obtain ⟨s1, hd⟩ := ih (rest ++ e.high_out prog) (normal ++ e.normal_out prog) t2 hx
        refine ⟨s1, ?_⟩
        rw [drain_cons prog n _ e rest rfl, entry_run_eq]
        simp only [if_true]
        rw [hd, ← h]
        rfl

theorem demo_bounded : submits_bounded demo_prog_wf demo_weight := by
  intro f
  by_cases h1 : f = 1
  · subst h1; decide
  by_cases h3 : f = 3
  · subst h3; decide
  by_cases h6 : f = 6
  · subst h6; decide
  simp [demo_prog_wf, demo_prog, h1, h3, h6, high_submits, queue_weight]

/-- C1. One `yield` on the worker thread with a non-empty normal queue, for
every content of the two queues.  It returns when high priority submissions
are well founded and the fuel covers the weight of the high queue, and on a
running executor whenever the order of the spec exhausts the high queue
within the fuel (the trace is then that order and the popped entry).  Whenever
it returns, its trace is the trace `t` of the drain followed by the function
of the popped normal entry (nothing for a `nullptr` or the empty lambda), and
`t` is the whole high queue in FIFO order: on a running executor the order of
the spec (`fifo_order`: head first, high priority submissions of a drained
function join the tail), which is the old high queue itself, every entry
once, when none of its functions submits at high priority; on a stopped
executor, where submissions are refused, the old high queue itself.  So `t`
starts with the old high queue, contains the high priority submissions of its
functions and nothing else.  The state afterwards is determined: the running
flag is unchanged; on a running executor the high queue holds exactly the high
priority submissions of the popped entry and the normal queue is the old one
without its head, followed by what the executed functions pushed; on a stopped
executor the high queue is empty and the normal queue is the old one without
its head. -/
theorem yield_drains_high_then_runs_head (prog : program) (s : executor) (func : entry)
    (rest : List entry) (hn : s.normal = func :: rest) (fuel : Nat) :
    (∀ w, submits_bounded prog w → queue_weight w s.high ≤ fuel →
        ∃ s2 tr, yield prog fuel true s = .returned s2 tr) ∧
      (s.is_running_ = true → ∀ t, fifo_order prog fuel s.high = some t →
        ∃ s2, yield prog fuel true s = .returned s2 (t ++ func.funcs)) ∧
      ∀ s2 tr, yield prog fuel true s = .returned s2 tr →
        ∃ t, tr = t ++ func.funcs ∧
          (s.is_running_ = true →
            fifo_order prog fuel s.high = some t ∧
              s2 = ⟨true, func.high_out prog,
                rest ++ pushed_normal prog (t ++ func.funcs)⟩) ∧
          (s.is_running_ = false → t = queue_funcs s.high ∧ s2 = ⟨false, [], rest⟩) ∧
          ((∀ f ∈ queue_funcs s.high, high_submits (prog f) = []) →
            t = queue_funcs s.high) ∧
          queue_funcs s.high <+: t ∧
          (s.is_running_ = true →
            ∀ f ∈ t, ∀ g ∈ queue_funcs (high_submits (prog f)), g ∈ t) ∧
          (∀ g ∈ t, g ∈ queue_funcs s.high ∨
            ∃ f ∈ t, g ∈ queue_funcs (high_submits (prog f))) ∧
          s2.high = (if s.is_running_ then func.high_out prog else []) ∧
          rest <+: s2.normal ∧
          s2.is_running_ = s.is_running_ := by
  refine ⟨?_, ?_, ?_⟩
  · intro w hw hf
    obtain ⟨⟨s1, t⟩, hd⟩ := drain_ends prog w hw fuel { s with normal := rest } hf
    exact ⟨_, _, by simp only [yield, hn, hd]; rfl⟩
  · intro hr t ht
    obtain ⟨s1, hd⟩ := drain_of_fifo_order prog fuel s.high rest t ht
    refine ⟨(func.run prog s1).1, ?_⟩
    simp only [yield, hn, Bool.not_true, Bool.false_eq_true, if_false, hr, hd, entry_run_eq]
  · intro s2 tr hy
    unfold yield at hy
    simp only [Bool.not_true, Bool.false_eq_true, if_false, hn] at hy
    cases hd : drain prog fuel { s with normal := rest } with
    | none => rw [hd] at hy; simp at hy
    | some r =>
      obtain ⟨s1, t⟩ := r
      rw [hd] at hy
      simp only [yield_result.returned.injEq] at hy
      obtain ⟨rfl, rfl⟩ := hy
      obtain ⟨h1, h3, h4, h5⟩ := drain_post prog fuel _ s1 t hd
      obtain ⟨c1, c2, _⟩ := drain_sound prog fuel _ s1 t hd
      obtain ⟨e1, e2⟩ := drain_exact prog fuel _ s1 t hd
      have h2 := drain_running prog fuel _ s1 t hd
      simp only [] at h2 h3 e1 e2
      refine ⟨t, by rw [entry_run_eq], ?_, ?_, ?_, h4, c1, c2, ?_, ?_, ?_⟩
      · intro hr
        obtain ⟨ha, hb⟩ := e1 hr
        refine ⟨ha, ?_⟩
        rw [entry_run_eq, hb]
        simp only [if_true, List.nil_append, pushed_normal_append, normal_out_pushed,
          List.append_assoc]
      · intro hr
        obtain ⟨ha, hb⟩ := e2 hr
        refine ⟨ha, ?_⟩
        rw [entry_run_eq, hb]
        simp
      · intro hflat
        cases hr : s.is_running_
        · exact (e2 hr).1
        · exact fifo_order_flat prog fuel s.high t hflat (e1 hr).1
      · rw [entry_run_eq, h2]
        cases s.is_running_ <;> simp [h1]
      · rw [entry_run_eq]
        cases s1.is_running_
        · simpa using h3
        · exact h3.trans ( List.prefix_append _ _)
      · rw [entry_run_running, h2]

/-- Witness for C1 on the example state: task 3 is drained first, then task 4
that it submitted, then the popped normal task 1. -/
theorem yield_drains_high_then_runs_head_witness :
    (∃ s2 tr, yield demo_prog_wf 2 true demo_state = .returned s2 tr) ∧
      ∃ t, [3, 4, 1] = t ++ (entry.task 1).funcs ∧
        (demo_state.is_running_ = true →
          fifo_order demo_prog_wf 2 demo_state.high = some t ∧
            (⟨true, [.task 2], [.task 8, .null, .task 5, .null]⟩ : executor) =
              ⟨true, (entry.task 1).high_out demo_prog_wf,
                [.task 8] ++ pushed_normal demo_prog_wf (t ++ (entry.task 1).funcs)⟩) ∧
        (demo_state.is_running_ = false →
          t = queue_funcs demo_state.high ∧
            (⟨true, [.task 2], [.task 8, .null, .task 5, .null]⟩ : executor) =
              ⟨false, [], [.task 8]⟩) ∧
        ((∀ f ∈ queue_funcs demo_state.high, high_submits (demo_prog_wf f) = []) →
          t = queue_funcs demo_state.high) ∧
        queue_funcs demo_state.high <+: t ∧
        (demo_state.is_running_ = true →
          ∀ f ∈ t, ∀ g ∈ queue_funcs (high_submits (demo_prog_wf f)), g ∈ t) ∧
        (∀ g ∈ t, g ∈ queue_funcs demo_state.high ∨
          ∃ f ∈ t, g ∈ queue_funcs (high_submits (demo_prog_wf f))) ∧
        (⟨true, [.task 2], [.task 8, .null, .task 5, .null]⟩ : executor).high =
          (if demo_state.is_running_ then (entry.task 1).high_out demo_prog_wf else []) ∧
        [entry.task 8] <+:
          (⟨true, [.task 2], [.task 8, .null, .task 5, .null]⟩ : executor).normal ∧
        (⟨true, [.task 2], [.task 8, .null, .task 5, .null]⟩ : executor).is_running_ =
          demo_state.is_running_ :=
  ⟨(yield_drains_high_then_runs_head demo_prog_wf demo_state (.task 1) [.task 8] rfl 2).1
      demo_weight demo_bounded (by decide),
    (yield_drains_high_then_runs_head demo_prog_wf demo_state (.task 1) [.task 8] rfl 2).2.2
      ⟨true, [.task 2], [.task 8, .null, .task 5, .null]⟩ [3, 4, 1] (by decide)⟩

theorem begin_invoke_high (f : Nat) (p : task_priority) (s s1 : executor)
    (h : begin_invoke f p s = .ok s1) :
    s1.high = (if p = .high_priority then s.high ++ [entry.task f] else s.high) ∧
      s1.is_running_ = s.is_running_ ∧ s.normal <+: s1.normal := by
  unfold begin_invoke at h
  cases hr : s.is_running_
  · simp [hr] at h
  · cases p <;> simp [hr, executor.push] at h <;> subst h <;> simp [hr]

/-- A task waiting in the high queue is executed by the next `yield` that
completes, before anything of a function `n` that is neither in the high queue
nor ever submitted at high priority. -/
theorem exec_high_first (prog : program) (fuel : Nat) (h n : Nat)
    (hprog : ∀ f, (task_priority.high_priority, n) ∉ (prog f).submits) :
    ∀ (steps : List step) (s s2 : executor) (tr : List Nat),
      step.submit n .high_priority ∉ steps →
      entry.task h ∈ s.high → entry.task n ∉ s.high →
      exec prog fuel steps s = some (s2, tr) →
      ∀ pre post, tr = pre ++ n :: post → h ∈ pre := by
  intro steps
  induction steps with
  | nil =>
    intro s s2 tr _ _ _ hrun pre post htr
    simp only [exec, Option.some.injEq, Prod.mk.injEq] at hrun
    obtain ⟨_, rfl⟩ := hrun
    simp at htr
  | cons st rest ih =>
    intro s s2 tr hsteps hh hn hrun pre post htr
    have hrest : step.submit n .high_priority ∉ rest := fun hm =>
      hsteps (List.mem_cons_of_mem _ hm)
    cases st with
    | submit f p =>
      simp only [exec] at hrun
      cases hb : begin_invoke f p s with
      | error e =>
        rw [hb] at hrun
        exact ih s s2 tr hrest hh hn hrun pre post htr
      | ok s1 =>
        rw [hb] at hrun
        obtain ⟨hhigh, _, _⟩ := begin_invoke_high f p s s1 hb
        refine ih s1 s2 tr hrest ?_ ?_ hrun pre post htr
        · rw [hhigh]; split
          · exact List.mem_append_left _ hh
          · exact hh
        · rw [hhigh]; split
          · rename_i hp
            intro hm
            rcases List.mem_append.1 hm with hm | hm
            · exact hn hm
            · simp only [List.mem_singleton, entry.task.injEq] at hm
              subst hm; subst hp
              exact hsteps (List.mem_cons_self _ _)
          · exact hn
    | yield =>
      simp only [exec] at hrun
      cases hy : yield prog fuel true s with
      | raised e => rw [hy] at hrun; simp at hrun
      | blocked => rw [hy] at hrun; simp at hrun
      | unfinished => rw [hy] at hrun; simp at hrun
      | returned s1 t =>
        rw [hy] at hrun
        simp only [] at hrun
        cases hx : exec prog fuel rest s1 with
        | none => rw [hx] at hrun; simp at hrun
        | some r =>
          obtain ⟨s3, t3⟩ := r
          rw [hx] at hrun
          simp only [Option.some.injEq, Prod.mk.injEq] at hrun
          obtain ⟨_, rfl⟩ := hrun
          -- the trace of this yield: the drain, then the popped entry
          unfold yield at hy
          simp only [Bool.not_true, Bool.false_eq_true, if_false] at hy
          cases hq : s.normal with
          | nil => rw [hq] at hy; simp at hy
          | cons func more =>
            rw [hq] at hy
            simp only [] at hy
            cases hd : drain prog fuel { s with normal := more } with
            | none => rw [hd] at hy; simp at hy
            | some r1 =>
              obtain ⟨sd, td⟩ := r1
              rw [hd] at hy
              simp only [yield_result.returned.injEq] at hy
              obtain ⟨_, rfl⟩ := hy
              obtain ⟨_, c2, c3⟩ := drain_sound prog fuel _ sd td hd
              have hin : h ∈ td := c3 h (by
                simp only [queue_funcs, List.mem_flatten, List.mem_map]
                exact ⟨[h], ⟨entry.task h, hh, rfl⟩, by simp⟩)
              have hnot : n ∉ td := by
                intro hm
                rcases c2 n hm with hm2 | ⟨f, _, hm2⟩
                · simp only [queue_funcs, List.mem_flatten, List.mem_map] at hm2
                  obtain ⟨l, ⟨e, he, rfl⟩, hl⟩ := hm2
                  cases e <;> simp [entry.funcs] at hl
                  subst hl
                  exact hn he
                · simp only [queue_funcs, high_submits, List.mem_flatten, List.mem_map,
                    List.mem_filter] at hm2
                  obtain ⟨l, ⟨e, ⟨x, ⟨hx1, hx2⟩, rfl⟩, rfl⟩, hl⟩ := hm2
                  simp only [entry.funcs, List.mem_singleton] at hl
                  obtain ⟨p, g⟩ := x
                  simp only [decide_eq_true_eq] at hx2
                  simp only [] at hl
                  subst hl; subst hx2
                  exact hprog f hx1
              rw [List.append_assoc] at htr
              rcases List.append_eq_append_iff.1 htr with ⟨a, ha, _⟩ | ⟨c, hc, hc2⟩
              · rw [ha]; exact List.mem_append_left _ hin
              · cases c with
                | nil =>
                  simp only [List.append_nil] at hc
                  rw [← hc]; exact hin
                | cons x c =>
                  simp only [List.cons_append, List.cons.injEq] at hc2
                  exfalso
                  apply hnot
                  rw [hc, ← hc2.1]
                  simp

/-- C2 (as stated, refuted). Function 1 waits in the normal queue of a running
executor and submits function 2 at high priority while it runs, so 2 is
submitted while 1 is pending; the first `yield` executes 1, and 2 is executed
by the second `yield`, after 1. -/
theorem high_task_of_running_normal_task_runs_after :
    (task_priority.high_priority, 2) ∈ (demo_prog 1).submits ∧
      yield demo_prog 1 true ⟨true, [], [.task 1]⟩ =
        .returned ⟨true, [.task 2], [.null]⟩ [1] ∧
      exec demo_prog 1 [.yield, .yield] ⟨true, [], [.task 1]⟩ =
        some (⟨true, [], []⟩, [1, 2]) ∧
      ¬ (∀ pre post : List Nat, [1, 2] = pre ++ 1 :: post → 2 ∈ pre) := by
  refine ⟨by decide, by decide, by decide, ?_⟩
  intro h
  have := h [] [2] rfl
  simp at this

/-- C2 (amended). A high priority task `h` accepted by `begin_invoke` while
the normal priority task `n` is still waiting in the normal queue is executed
before `n`, for every interleaving of later submissions and `yield` steps:
in the trace of the run, every execution of `n` comes after an execution of
`h`.  That `n` is a normal priority task is expressed by: it is not in the
high queue and is never submitted at high priority. -/
theorem high_task_runs_before_waiting_normal_task (prog : program) (fuel : Nat) (h n : Nat)
    (s0 s1 : executor) (_hN : entry.task n ∈ s0.normal) (hnh : entry.task n ∉ s0.high)
    (hne : h ≠ n) (hprog : ∀ f, (task_priority.high_priority, n) ∉ (prog f).submits)
    (hsub : begin_invoke h .high_priority s0 = .ok s1)
    (steps : List step) (hsteps : step.submit n .high_priority ∉ steps)
    (s2 : executor) (tr : List Nat) (hrun : exec prog fuel steps s1 = some (s2, tr)) :
    ∀ pre post, tr = pre ++ n :: post → h ∈ pre := by
  obtain ⟨hhigh, _, _⟩ := begin_invoke_high h .high_priority s0 s1 hsub
  simp only [if_true] at hhigh
  refine exec_high_first prog fuel h n hprog steps s1 s2 tr hsteps ?_ ?_ hrun
  · rw [hhigh]; simp
  · rw [hhigh]
    intro hm
    rcases List.mem_append.1 hm with hm | hm
    · exact hnh hm
    · simp only [List.mem_singleton, entry.task.injEq] at hm
      exact hne hm.symm

theorem demo_never_submits_nine :
    ∀ f, (task_priority.high_priority, 9) ∉ (demo_prog_wf f).submits := by
  intro f
  by_cases h1 : f = 1
  · subst h1; decide
  by_cases h3 : f = 3
  · subst h3; decide
  by_cases h6 : f = 6
  · subst h6; decide
  simp [demo_prog_wf, demo_prog, h1, h3, h6]

/-- Witness for C2: task 9 waits behind task 8 when task 2 is submitted at
high priority; after a further submission and four `yield`s the trace is
`[2, 8, 9, 5]`, with 2 before 9. -/
theorem high_task_runs_before_waiting_normal_task_witness :
    exec demo_prog_wf 1 [.submit 5 .normal_priority, .yield, .yield, .yield, .yield]
        ⟨true, [.task 2], [.task 8, .task 9, .null]⟩ = some (⟨true, [], []⟩, [2, 8, 9, 5]) ∧
      ∀ pre post, [2, 8, 9, 5] = pre ++ 9 :: post → 2 ∈ pre :=
  ⟨by decide,
    high_task_runs_before_waiting_normal_task demo_prog_wf 1 2 9
      ⟨true, [], [.task 8, .task 9]⟩ ⟨true, [.task 2], [.task 8, .task 9, .null]⟩
      (by decide) (by decide) (by decide) demo_never_submits_nine rfl
      [.submit 5 .normal_priority, .yield, .yield, .yield, .yield] (by decide)
      ⟨true, [], []⟩ [2, 8, 9, 5] (by decide)⟩

theorem yield_running (prog : program) (fuel : Nat) (b : Bool) (s s1 : executor)
    (t : List Nat) (h : yield prog fuel b s = .returned s1 t) :
    s1.is_running_ = s.is_running_ := by
  unfold yield at h
  cases b
  · simp at h
  · simp only [Bool.not_true, Bool.false_eq_true, if_false] at h
    cases hq : s.normal with
    | nil => rw [hq] at h; simp at h
    | cons func rest =>
      rw [hq] at h
      simp only [] at h
      cases hd : drain prog fuel { s with normal := rest } with
      | none => rw [hd] at h; simp at h
      | some r =>
        obtain ⟨sd, td⟩ := r
        rw [hd] at h
        simp only [yield_result.returned.injEq] at h
        have h1 := drain_running prog fuel _ sd td hd
        simp only [] at h1
        rw [← h.1, entry_run_running, h1]

theorem exec_running (prog : program) (fuel : Nat) :
    ∀ (steps : List step) (s s2 : executor) (tr : List Nat),
      exec prog fuel steps s = some (s2, tr) → s2.is_running_ = s.is_running_ := by
  intro steps
  induction steps with
  | nil =>
    intro s s2 tr h
    simp only [exec, Option.some.injEq, Prod.mk.injEq] at h
    rw [← h.1]
  | cons st rest ih =>
    intro s s2 tr h
    cases st with
    | submit f p =>
      simp only [exec] at h
      cases hb : begin_invoke f p s with
      | error e => rw [hb] at h; exact ih _ _ _ h
      | ok s1 =>
        rw [hb] at h
        rw [ih _ _ _ h]
        exact (begin_invoke_high f p s s1 hb).2.1
    | yield =>
      simp only [exec] at h
      cases hy : yield prog fuel true s with
      | raised e => rw [hy] at h; simp at h
      | blocked => rw [hy] at h; simp at h
      | unfinished => rw [hy] at h; simp at h
      | returned s1 t =>
        rw [hy] at h
        simp only [] at h
        cases hx : exec prog fuel rest s1 with
        | none => rw [hx] at h; simp at h
        | some r =>
          rw [hx] at h
          simp only [Option.some.injEq, Prod.mk.injEq] at h
          rw [← h.1, ih _ _ _ hx]
          exact yield_running prog fuel true s s1 t hy

/-- C8 (as stated, refuted). After `stop`, `begin_invoke` throws
`invalid_operation`, the very class that `yield` throws off the worker
thread; only the message differs.  So no reading of exception classes as
error kinds makes the first a `NotRunningError` and the second an
`InvalidOperationError`. -/
theorem begin_invoke_after_stop_throws_invalid_operation :
    begin_invoke 1 .normal_priority executor.create.stop =
        .error (.invalid_operation (some "executor not running.")) ∧
      yield demo_prog 0 false executor.create.stop =
        .raised (.invalid_operation
          (some "Executor can only yield inside of thread context.")) ∧
      ¬ ∃ kind : exception_class → error_kind,
        kind (exception.invalid_operation (some "executor not running.")).cls =
            error_kind.NotRunningError ∧
          kind (exception.invalid_operation
            (some "Executor can only yield inside of thread context.")).cls =
            error_kind.InvalidOperationError := by
  refine ⟨rfl, rfl, ?_⟩
  rintro ⟨kind, h1, h2⟩
  simp only [exception.cls] at h1 h2
  rw [h1] at h2
  cases h2

/-- C8 (amended). After `stop`, `is_running` is false, and it stays false
over every run of later submissions and `yield`s; every `begin_invoke` made
then, whatever the function and the priority, throws `invalid_operation` with
the message "executor not running." and, as a step of a run, leaves both
queues as they were. -/
theorem begin_invoke_after_stop_fails (prog : program) (fuel : Nat) (s : executor)
    (steps : List step) (s2 : executor) (tr : List Nat)
    (hrun : exec prog fuel steps s.stop = some (s2, tr)) (f : Nat) (p : task_priority) :
    s.stop.is_running = false ∧ s2.is_running = false ∧
      begin_invoke f p s2 = .error (.invalid_operation (some "executor not running.")) ∧
      (begin_invoke f p s2).toOption = none ∧
      exec prog fuel [.submit f p] s2 = some (s2, []) := by
  have h2 : s2.is_running_ = false := by
    rw [exec_running prog fuel steps _ _ _ hrun]; rfl
  refine ⟨rfl, h2, ?_, ?_, ?_⟩
  · simp [begin_invoke, h2]
  · simp [begin_invoke, h2, Except.toOption]
  · simp [exec, begin_invoke, h2]

/-- Witness for C8: the example state is stopped, a refused submission and a
`yield` follow, and a further `begin_invoke` is refused. -/
theorem begin_invoke_after_stop_fails_witness :
    demo_state.stop.is_running = false ∧
      (⟨false, [], [.task 8, .noop]⟩ : executor).is_running = false ∧
      begin_invoke 4 .high_priority ⟨false, [], [.task 8, .noop]⟩ =
        .error (.invalid_operation (some "executor not running.")) ∧
      (begin_invoke 4 .high_priority ⟨false, [], [.task 8, .noop]⟩).toOption = none ∧
      exec demo_prog 5 [.submit 4 .high_priority] ⟨false, [], [.task 8, .noop]⟩ =
        some (⟨false, [], [.task 8, .noop]⟩, []) :=
  begin_invoke_after_stop_fails demo_prog 5 demo_state
    [.submit 7 .normal_priority, .yield] ⟨false, [], [.task 8, .noop]⟩ [3, 1]
    (by decide) 4 .high_priority

/-- C9. `invoke` on the worker thread, for every function, priority, queue
content and value of the running flag: the outcome is that of calling the
function (its value, or the exception it throws), never a wait on a future;
the priority plays no role; nothing is popped from either queue and the
running flag is unchanged; the state is exactly the one the call of the
function itself leaves, so for a function that submits nothing both queues are
as before, also on a stopped executor, where the result is still the one of
the function and not a not-running error. -/
theorem invoke_on_worker_runs_inline (prog : program) (f : Nat) (p : task_priority)
    (s : executor) :
    invoke prog true f p s =
        (match call prog f s with
          | (.ok v, s1) => invoke_result.returned v s1
          | (.error e, s1) => invoke_result.raised e s1) ∧
      invoke prog true f p s = invoke prog true f .normal_priority s ∧
      (∀ s1, invoke prog true f p s ≠ .waiting s1) ∧
      (call prog f s).2 =
        (if s.is_running_ then
          { s with high := s.high ++ high_submits (prog f),
                   normal := s.normal ++ normal_pushes (prog f) }
        else s) ∧
      s.high <+: (call prog f s).2.high ∧ s.normal <+: (call prog f s).2.normal ∧
      (call prog f s).2.is_running_ = s.is_running_ ∧
      ((prog f).submits = [] →
        invoke prog true f p s =
          (match (prog f).result with
            | .ok v => invoke_result.returned v s
            | .error c => invoke_result.raised (.user c) s)) := by
  have hst : (call prog f s).2 =
      (if s.is_running_ then
        { s with high := s.high ++ high_submits (prog f),
                 normal := s.normal ++ normal_pushes (prog f) }
      else s) := by
    rw [call_state, call_submits_state]; rfl
  refine ⟨?_, ?_, ?_, hst, ?_, ?_, ?_, ?_⟩
  · simp only [invoke, if_true]
  · simp [invoke]
  · intro s1
    simp only [invoke, if_true]
    rcases call prog f s with ⟨r, s2⟩
    cases r <;> simp
  · rw [hst]; cases s.is_running_ <;> simp
  · rw [hst]; cases s.is_running_ <;> simp
  · rw [hst]; cases hr : s.is_running_ <;> simp [hr]
  · intro h0
    simp only [invoke, if_true, call, h0, call_submits]
    cases (prog f).result <;> rfl

/-! ## Theorems: layer -/

theorem wrap64_of_range (x : Int) (h1 : -2 ^ 63 ≤ x) (h2 : x < 2 ^ 63) : wrap64 x = x := by
  unfold wrap64
  omega

/-- C5. `play()` on any layer.  With a background that is not the empty
producer: the new layer has the old background as foreground, the empty
producer as background, frame number 0, no auto-play delta and is not paused;
the object of the old background has been handed the old foreground through
`set_leading_producer`, and no other producer object is touched.  With the
empty producer as background: only `is_paused_` is set to false. -/
theorem play_swaps_in_background {σ : Type} (ops : producer_ops σ) (l : layer)
    (h : Nat → σ) :
    (l.background_ ≠ frame_producer.empty →
      (l.play ops h).1 =
          { foreground_ := l.background_, background_ := frame_producer.empty,
            frame_number_ := 0, auto_play_delta_ := none, is_paused_ := false } ∧
        (l.play ops h).2 l.background_ =
          ops.set_leading_producer (h l.background_) l.foreground_ ∧
        ∀ q, q ≠ l.background_ → (l.play ops h).2 q = h q) ∧
    (l.background_ = frame_producer.empty →
      (l.play ops h).1 = { l with is_paused_ := false } ∧ (l.play ops h).2 = h) := by
  constructor
  · intro hb
    simp only [layer.play, hb, ne_eq, not_false_eq_true, if_true, layer.resume,
      Function.update_same, true_and]
    intro q hq
    exact Function.update_noteq hq _ _
  · intro hb
    simp [layer.play, hb, layer.resume]

/-- C4 (as stated, refuted). Loading the empty producer itself with delta 3
on a fresh (stopped) layer: the foreground is still the empty producer, and
the auto-play delta stays set. -/
theorem load_empty_producer_stays_stopped :
    (layer.create.load demo_ops frame_producer.empty (some 3) demo_heap).1.foreground_ =
        frame_producer.empty ∧
      (layer.create.load demo_ops frame_producer.empty (some 3) demo_heap).1.auto_play_delta_ =
        some 3 ∧
      (layer.create.load demo_ops frame_producer.empty (some 3) demo_heap).1.frame_number_ = 0 := by
  decide

/-- C4 (amended). For every producer `P` other than the empty producer, every
delta `d` and every layer whose foreground is the empty producer (paused or
not): after `load(P, d)` the foreground is `P`, so not the empty producer, the
layer is not paused, the background is the empty producer, the frame number is
0 and no auto-play delta is set. -/
theorem load_with_delta_on_stopped_layer_plays {σ : Type} (ops : producer_ops σ) (P : Nat)
    (d : Int) (l : layer) (h : Nat → σ) (hstopped : l.foreground_ = frame_producer.empty)
    (hP : P ≠ frame_producer.empty) :
    (l.load ops P (some d) h).1.foreground_ = P ∧
      (l.load ops P (some d) h).1.foreground_ ≠ frame_producer.empty ∧
      (l.load ops P (some d) h).1.is_paused_ = false ∧
      (l.load ops P (some d) h).1.background_ = frame_producer.empty ∧
      (l.load ops P (some d) h).1.frame_number_ = 0 ∧
      (l.load ops P (some d) h).1.auto_play_delta_ = none := by
  simp [layer.load, layer.play, layer.resume, hstopped, hP]

/-- Witness for C4: producer 5 loaded with delta 3 on a stopped, paused layer. -/
theorem load_with_delta_on_stopped_layer_plays_witness :
    (layer.create.stop.load demo_ops 5 (some 3) demo_heap).1.foreground_ = 5 ∧
      (layer.create.stop.load demo_ops 5 (some 3) demo_heap).1.foreground_ ≠
        frame_producer.empty ∧
      (layer.create.stop.load demo_ops 5 (some 3) demo_heap).1.is_paused_ = false ∧
      (layer.create.stop.load demo_ops 5 (some 3) demo_heap).1.background_ =
        frame_producer.empty ∧
      (layer.create.stop.load demo_ops 5 (some 3) demo_heap).1.frame_number_ = 0 ∧
      (layer.create.stop.load demo_ops 5 (some 3) demo_heap).1.auto_play_delta_ = none :=
  load_with_delta_on_stopped_layer_plays demo_ops 5 3 layer.create.stop demo_heap
    (by decide) (by decide)

/-- C10 (as stated, refuted). Right after `stop()` the foreground is the
empty producer, yet the status is "paused" and not "stopped". -/
theorem status_after_stop_is_paused :
    layer.create.stop.foreground_ = frame_producer.empty ∧
      layer.create.stop.info_status = "paused" ∧
      layer.create.stop.info_status ≠ "stopped" := by
  decide

/-- C10 (amended). The status of `info()` for every layer: "paused" exactly
when `is_paused_` is set, whatever the foreground; "stopped" exactly when the
layer is not paused and the foreground is the empty producer; "playing"
exactly when it is not paused and the foreground is not the empty producer.
Every layer right after `stop()` reports "paused". -/
theorem info_status_cases (l : layer) :
    (l.info_status = "paused" ↔ l.is_paused_ = true) ∧
      (l.info_status = "stopped" ↔
        l.is_paused_ = false ∧ l.foreground_ = frame_producer.empty) ∧
      (l.info_status = "playing" ↔
        l.is_paused_ = false ∧ l.foreground_ ≠ frame_producer.empty) ∧
      l.stop.info_status = "paused" := by
  unfold layer.info_status
  refine ⟨?_, ?_, ?_, rfl⟩
  · cases l.is_paused_
    · by_cases hf : l.foreground_ = frame_producer.empty <;> simp [hf]
    · simp
  · cases l.is_paused_
    · by_cases hf : l.foreground_ = frame_producer.empty <;> simp [hf]
    · simp
  · cases l.is_paused_
    · by_cases hf : l.foreground_ = frame_producer.empty <;> simp [hf]
    · simp

theorem receive_succ {σ : Type} (ops : producer_ops σ) (fuel : Nat) (flags : Int) (l : layer)
    (h : Nat → σ) :
    layer.receive ops (fuel + 1) flags l h =
      (layer.try_block ops (fun l1 h1 => layer.receive ops fuel flags l1 h1) flags l h).map
        layer.catch_all := rfl

/-- Without an auto-play delta the `try` block ends without a retry, leaves the
layer as it is and does not call `play`. -/
theorem try_block_unarmed {σ : Type} (ops : producer_ops σ)
    (retry : layer → (Nat → σ) → Option (receive_result σ)) (flags : Int) (l : layer)
    (h : Nat → σ) (hd : l.auto_play_delta_ = none) :
    ∃ a, layer.try_block ops retry flags l h = some a ∧ a.l = l ∧ event.play ∉ a.log := by
  unfold layer.try_block
  simp only [hd]
  split
  · exact ⟨_, rfl, rfl, by simp⟩
  · split
    · exact ⟨_, rfl, rfl, by simp⟩
    · split
      · exact ⟨_, rfl, rfl, by simp⟩
      · exact ⟨_, rfl, rfl, by simp⟩

theorem catch_all_log {σ : Type} (a : attempt σ) (e : event) (he : ∀ c, e ≠ .fault c) :
    e ∈ (layer.catch_all a).log ↔ e ∈ a.log := by
  unfold layer.catch_all
  cases a.outcome with
  | ok f => simp
  | error c =>
    simp only [List.mem_append, List.mem_singleton]
    constructor
    · rintro (h | h)
      · exact h
      · exact absurd h (he c)
    · exact Or.inl

theorem catch_all_delta {σ : Type} (a : attempt σ) (hd : a.l.auto_play_delta_ = none) :
    (layer.catch_all a).l.auto_play_delta_ = none := by
  unfold layer.catch_all
  cases a.outcome <;> simp [hd, layer.stop, layer.pause]

/-- Without an auto-play delta `receive` returns at depth one, calls no `play`
and leaves the delta unset. -/
theorem receive_unarmed {σ : Type} (ops : producer_ops σ) (fuel : Nat) (flags : Int)
    (l : layer) (h : Nat → σ) (hd : l.auto_play_delta_ = none) :
    ∃ r, layer.receive ops (fuel + 1) flags l h = some r ∧ r.l.auto_play_delta_ = none ∧
      event.play ∉ r.log := by
  obtain ⟨a, ha, hl, hp⟩ := try_block_unarmed ops
    (fun l1 h1 => layer.receive ops fuel flags l1 h1) flags l h hd
  refine ⟨layer.catch_all a, ?_, ?_, ?_⟩
  · rw [receive_succ, ha]; rfl
  · exact catch_all_delta a (by rw [hl]; exact hd)
  · rw [catch_all_log a _ (by intro c; simp)]
    exact hp

/-- The `try` block when the auto-play branch is taken: it ends as the nested call ends. -/
theorem try_block_retry {σ : Type} (ops : producer_ops σ)
    (retry : layer → (Nat → σ) → Option (receive_result σ)) (flags : Int) (l : layer)
    (h : Nat → σ) (frame : draw_frame) (st : σ) (d nb : Int)
    (hp : l.is_paused_ = false) (hr : ops.receive (h l.foreground_) flags = (.ok frame, st))
    (hl : frame ≠ draw_frame.late) (hd : l.auto_play_delta_ = some d)
    (hn : ops.nb_frames st = .ok nb)
    (hf : frames_left nb (wrap64 (l.frame_number_ + 1)) d < 1) :
    layer.try_block ops retry flags l h =
      (retry
        (layer.play ops { l with frame_number_ := wrap64 (l.frame_number_ + 1) }
          (Function.update h l.foreground_ st)).1
        (layer.play ops { l with frame_number_ := wrap64 (l.frame_number_ + 1) }
          (Function.update h l.foreground_ st)).2).map
        (fun r => { outcome := .ok r.frame, l := r.l, heap := r.heap,
                    log := [.pull l.foreground_, .nb_frames l.foreground_, .play] ++ r.log }) := by
  unfold layer.try_block
  simp only [hp, Bool.false_eq_true, if_false, receive_and_follow, hr, hl, hd,
    Function.update_same, hn, hf, if_true]
  cases retry _ _ <;> rfl

/-- The `try` block when the threshold is not reached: the frame is returned
and the frame number is incremented. -/
theorem try_block_continue {σ : Type} (ops : producer_ops σ)
    (retry : layer → (Nat → σ) → Option (receive_result σ)) (flags : Int) (l : layer)
    (h : Nat → σ) (frame : draw_frame) (st : σ) (d nb : Int)
    (hp : l.is_paused_ = false) (hr : ops.receive (h l.foreground_) flags = (.ok frame, st))
    (hl : frame ≠ draw_frame.late) (hd : l.auto_play_delta_ = some d)
    (hn : ops.nb_frames st = .ok nb)
    (hf : ¬ frames_left nb (wrap64 (l.frame_number_ + 1)) d < 1) :
    layer.try_block ops retry flags l h =
      some { outcome := .ok frame,
             l := { l with frame_number_ := wrap64 (l.frame_number_ + 1) },
             heap := Function.update h l.foreground_ st,
             log := [.pull l.foreground_, .nb_frames l.foreground_] } := by
  unfold layer.try_block
  simp only [hp, Bool.false_eq_true, if_false, receive_and_follow, hr, hl, hd,
    Function.update_same, hn, hf]

/-- Every end of the `try` block either has no fault in its events yet, or is
the end of the nested call. -/
theorem try_block_origin {σ : Type} (ops : producer_ops σ)
    (retry : layer → (Nat → σ) → Option (receive_result σ)) (flags : Int) (l : layer)
    (h : Nat → σ) (a : attempt σ) (ha : layer.try_block ops retry flags l h = some a) :
    (∀ c, event.fault c ∉ a.log) ∨
      ∃ l1 h1 r, retry l1 h1 = some r ∧ a.outcome = .ok r.frame ∧ a.l = r.l ∧
        a.heap = r.heap ∧ ∀ c, event.fault c ∈ a.log → event.fault c ∈ r.log := by
  obtain ⟨fg, bg, fn, delta, paused⟩ := l
  unfold layer.try_block at ha
  simp only [] at ha
  cases paused
  · simp only [Bool.false_eq_true, if_false] at ha
    rcases hr : receive_and_follow ops h fg flags with ⟨res, h1⟩
    rw [hr] at ha
    cases res with
    | error c => simp only [Option.some.injEq] at ha; subst ha; left; simp
    | ok frame =>
      simp only [] at ha
      by_cases hl : frame = draw_frame.late
      · simp only [hl, if_true, Option.some.injEq] at ha; subst ha; left; simp
      · simp only [hl, if_false] at ha
        cases delta with
        | none => simp only [Option.some.injEq] at ha; subst ha; left; simp
        | some d =>
          simp only [] at ha
          cases hn : ops.nb_frames (h1 fg) with
          | error c => simp only [hn, Option.some.injEq] at ha; subst ha; left; simp
          | ok nb =>
            simp only [hn] at ha
            by_cases hf : frames_left nb (wrap64 (fn + 1)) d < 1
            · simp only [hf, if_true] at ha
              cases hx : retry
                (layer.play ops ⟨fg, bg, wrap64 (fn + 1), some d, false⟩ h1).1
                (layer.play ops ⟨fg, bg, wrap64 (fn + 1), some d, false⟩ h1).2 with
              | none => simp [hx] at ha
              | some r =>
                simp only [hx, Option.some.injEq] at ha; subst ha
                right
                exact ⟨_, _, r, hx, rfl, rfl, rfl, by simp⟩
            · simp only [hf, if_false, Option.some.injEq] at ha; subst ha; left; simp
  · simp only [if_true, Option.some.injEq] at ha; subst ha; left; simp

/-- The `try` block ends whenever the nested call ends on layers without an
auto-play delta, provided a background is pending or no delta is set. -/
theorem try_block_total {σ : Type} (ops : producer_ops σ)
    (retry : layer → (Nat → σ) → Option (receive_result σ)) (flags : Int) (l : layer)
    (h : Nat → σ)
    (hretry : ∀ l1 h1, l1.auto_play_delta_ = none → ∃ r, retry l1 h1 = some r)
    (hl : l.background_ ≠ frame_producer.empty ∨ l.auto_play_delta_ = none) :
    ∃ a, layer.try_block ops retry flags l h = some a := by
  rcases hl with hb | hd
  · obtain ⟨fg, bg, fn, delta, paused⟩ := l
    simp only [] at hb
    unfold layer.try_block
    simp only []
    cases paused
    · simp only [Bool.false_eq_true, if_false]
      rcases hr : receive_and_follow ops h fg flags with ⟨res, h1⟩
      cases res with
      | error c => exact ⟨_, rfl⟩
      | ok frame =>
        simp only []
        by_cases hl : frame = draw_frame.late
        · simp only [hl, if_true]; exact ⟨_, rfl⟩
        · simp only [hl, if_false]
          cases delta with
          | none => exact ⟨_, rfl⟩
          | some d =>
            simp only []
            cases hn : ops.nb_frames (h1 fg) with
            | error c => exact ⟨_, rfl⟩
            | ok nb =>
              simp only []
              by_cases hf : frames_left nb (wrap64 (fn + 1)) d < 1
              · simp only [hf, if_true]
                obtain ⟨r, hr⟩ := hretry
                  (layer.play ops ⟨fg, bg, wrap64 (fn + 1), some d, false⟩ h1).1
                  (layer.play ops ⟨fg, bg, wrap64 (fn + 1), some d, false⟩ h1).2
                  (by simp [layer.play, hb, layer.resume])
                simp only [hr]
                exact ⟨_, rfl⟩
              · simp only [hf, if_false]; exact ⟨_, rfl⟩
    · simp only [if_true]; exact ⟨_, rfl⟩
  · obtain ⟨a, ha, _⟩ := try_block_unarmed ops retry flags l h hd
    exact ⟨a, ha⟩

/-- After the handler: the layer of the attempt when no exception was thrown;
the stopped layer, the empty frame and a fault event otherwise. -/
theorem catch_all_cases {σ : Type} (a : attempt σ) :
    ((layer.catch_all a).l = a.l ∧ (layer.catch_all a).log = a.log ∧
        a.outcome = .ok (layer.catch_all a).frame) ∨
      ((layer.catch_all a).l = a.l.stop ∧ (layer.catch_all a).frame = draw_frame.empty ∧
        ∃ c, event.fault c ∈ (layer.catch_all a).log) := by
  unfold layer.catch_all
  cases a.outcome with
  | ok f => left; simp
  | error c => right; exact ⟨rfl, rfl, c, by simp⟩

theorem catch_all_heap {σ : Type} (a : attempt σ) : (layer.catch_all a).heap = a.heap := by
  unfold layer.catch_all
  cases a.outcome <;> rfl

/-- Without an auto-play delta `receive` leaves the layer as it is unless a
producer call throws. -/
theorem receive_unarmed_layer {σ : Type} (ops : producer_ops σ) (fuel : Nat) (flags : Int)
    (l : layer) (h : Nat → σ) (hd : l.auto_play_delta_ = none) (r : receive_result σ)
    (hr : layer.receive ops (fuel + 1) flags l h = some r) :
    r.l = l ∨ ∃ c, event.fault c ∈ r.log := by
  obtain ⟨a, ha, hl, _⟩ := try_block_unarmed ops
    (fun l1 h1 => layer.receive ops fuel flags l1 h1) flags l h hd
  rw [receive_succ, ha] at hr
  simp only [Option.map, Option.some.injEq] at hr
  subst hr
  rcases catch_all_cases a with ⟨h1, _, _⟩ | ⟨_, _, h2⟩
  · left; rw [h1, hl]
  · right; exact h2

/-- On a paused layer `receive` returns at depth one and pulls no frame. -/
theorem receive_paused {σ : Type} (ops : producer_ops σ) (fuel : Nat) (flags : Int)
    (l : layer) (h : Nat → σ) (hp : l.is_paused_ = true) :
    ∃ r, layer.receive ops (fuel + 1) flags l h = some r ∧ ∀ p, event.pull p ∉ r.log := by
  have ha : layer.try_block ops (fun l1 h1 => layer.receive ops fuel flags l1 h1) flags l h =
      some { outcome := (ops.last_frame (h l.foreground_)).map draw_frame.silence,
             l := l, heap := h, log := [.last_frame l.foreground_] } := by
    unfold layer.try_block
    simp [hp]
  refine ⟨_, by rw [receive_succ, ha]; rfl, ?_⟩
  intro p
  rw [catch_all_log _ _ (by intro c; simp)]
  simp

/-- With a pending background or without an auto-play delta, `receive` returns
with at most one nested retry. -/
theorem receive_total {σ : Type} (ops : producer_ops σ) (fuel : Nat) (flags : Int)
    (l : layer) (h : Nat → σ)
    (hl : l.background_ ≠ frame_producer.empty ∨ l.auto_play_delta_ = none) :
    ∃ r, layer.receive ops (fuel + 2) flags l h = some r := by
  obtain ⟨a, ha⟩ := try_block_total ops
    (fun l1 h1 => layer.receive ops (fuel + 1) flags l1 h1) flags l h
    (fun l1 h1 hd => by
      obtain ⟨r, hr, _⟩ := receive_unarmed ops fuel flags l1 h1 hd
      exact ⟨r, hr⟩) hl
  exact ⟨layer.catch_all a, by rw [receive_succ, ha]; rfl⟩

/-- Whenever `receive` returns after a producer call has thrown, the result
is the empty frame and the stopped layer. -/
theorem receive_fault {σ : Type} (ops : producer_ops σ) (flags : Int) :
    ∀ (fuel : Nat) (l : layer) (h : Nat → σ) (r : receive_result σ),
      layer.receive ops fuel flags l h = some r → (∃ c, event.fault c ∈ r.log) →
      r.frame = draw_frame.empty ∧ r.l.foreground_ = frame_producer.empty ∧
        r.l.frame_number_ = 0 ∧ r.l.auto_play_delta_ = none ∧ r.l.is_paused_ = true := by
  intro fuel
  induction fuel with
  | zero => intro l h r hr; simp [layer.receive] at hr
  | succ n ih =>
    intro l h r hr hfault
    rw [receive_succ] at hr
    cases ha : layer.try_block ops (fun l1 h1 => layer.receive ops n flags l1 h1) flags l h with
    | none => rw [ha] at hr; simp at hr
    | some a =>
      rw [ha] at hr
      simp only [Option.map, Option.some.injEq] at hr
      subst hr
      rcases catch_all_cases a with ⟨h1, h2, h3⟩ | ⟨h1, h2, _⟩
      · -- no exception in this call: the fault is one of the nested call
        rcases try_block_origin ops _ flags l h a ha with hno | ⟨l1, h1', r', hr', ho, hl', _, hlog⟩
        · obtain ⟨c, hc⟩ := hfault
          rw [h2] at hc
          exact absurd hc (hno c)
        · obtain ⟨c, hc⟩ := hfault
          rw [h2] at hc
          have := ih l1 h1' r' hr' ⟨c, hlog c hc⟩
          rw [ho] at h3
          simp only [Except.ok.injEq] at h3
          rw [h1, hl', ← h3]
          exact this
      · rw [h1, h2]
        simp [layer.stop, layer.pause]

/-- On the example producers, a layer that plays producer 1 with an auto-play
delta of 3 and no pending background does not return from `receive` within any
nesting depth that keeps the frame number below 2^63: every nested call takes
the auto-play branch again. -/
theorem receive_retries_without_background :
    ∀ (fuel : Nat) (k : Int) (h : Nat → Nat), 0 ≤ k → k + fuel < 2 ^ 63 →
      layer.receive demo_ops fuel 0 ⟨1, frame_producer.empty, k, some 3, false⟩ h = none := by
  intro fuel
  induction fuel with
  | zero => intro k h _ _; rfl
  | succ n ih =>
    intro k h hk hb
    have hw : wrap64 (k + 1) = k + 1 := wrap64_of_range _ (by omega) (by push_cast at hb; omega)
    rw [receive_succ,
      try_block_retry demo_ops _ 0 ⟨1, frame_producer.empty, k, some 3, false⟩ h
        (.picture (h 1)) (h 1 + 1) 3 3 rfl rfl (by simp) rfl rfl
        (by
          simp only [hw]
          unfold frames_left wrap64
          push_cast at hb
          omega)]
    simp only [hw]
    have hplay : layer.play demo_ops ⟨1, frame_producer.empty, k + 1, some 3, false⟩
        (Function.update h 1 (h 1 + 1)) =
        (⟨1, frame_producer.empty, k + 1, some 3, false⟩, Function.update h 1 (h 1 + 1)) := by
      simp [layer.play, layer.resume]
    rw [hplay]
    simp only []
    rw [ih (k + 1) _ (by omega) (by push_cast at hb ⊢; omega)]
    rfl

/-- Every end of the `try` block either has not called `play`, or is the end
of the nested call made right after `play`, whose events follow the three
events of the outer call. -/
theorem try_block_play_cases {σ : Type} (ops : producer_ops σ)
    (retry : layer → (Nat → σ) → Option (receive_result σ)) (flags : Int) (l : layer)
    (h : Nat → σ) (a : attempt σ) (ha : layer.try_block ops retry flags l h = some a) :
    event.play ∉ a.log ∨
      ∃ h1 r,
        retry (layer.play ops { l with frame_number_ := wrap64 (l.frame_number_ + 1) } h1).1
            (layer.play ops { l with frame_number_ := wrap64 (l.frame_number_ + 1) } h1).2 =
          some r ∧
        a.outcome = .ok r.frame ∧ a.l = r.l ∧
        a.log = [.pull l.foreground_, .nb_frames l.foreground_, .play] ++ r.log := by
  obtain ⟨fg, bg, fn, delta, paused⟩ := l
  unfold layer.try_block at ha
  simp only [] at ha
  cases paused
  · simp only [Bool.false_eq_true, if_false] at ha
    rcases hr : receive_and_follow ops h fg flags with ⟨res, h1⟩
    rw [hr] at ha
    cases res with
    | error c => simp only [Option.some.injEq] at ha; subst ha; left; simp
    | ok frame =>
      simp only [] at ha
      by_cases hl : frame = draw_frame.late
      · simp only [hl, if_true, Option.some.injEq] at ha; subst ha; left; simp
      · simp only [hl, if_false] at ha
        cases delta with
        | none => simp only [Option.some.injEq] at ha; subst ha; left; simp
        | some d =>
          simp only [] at ha
          cases hn : ops.nb_frames (h1 fg) with
          | error c => simp only [hn, Option.some.injEq] at ha; subst ha; left; simp
          | ok nb =>
            simp only [hn] at ha
            by_cases hf : frames_left nb (wrap64 (fn + 1)) d < 1
            · simp only [hf, if_true] at ha
              cases hx : retry
                (layer.play ops ⟨fg, bg, wrap64 (fn + 1), some d, false⟩ h1).1
                (layer.play ops ⟨fg, bg, wrap64 (fn + 1), some d, false⟩ h1).2 with
              | none => simp [hx] at ha
              | some r =>
                simp only [hx, Option.some.injEq] at ha; subst ha
                right
                exact ⟨h1, r, hx, rfl, rfl, rfl⟩
            · simp only [hf, if_false, Option.some.injEq] at ha; subst ha; left; simp
  · simp only [if_true, Option.some.injEq] at ha; subst ha; left; simp

/-- C3 (as stated, refuted). Producer 1 reports three frames, always delivers
a frame and never throws; the layer plays it with delta 3 and the empty
producer as background.  `play()` then leaves the delta set; `receive` has not
returned after one nested retry, nor after 2^62 of them: every nested call
reaches the auto-play branch again. -/
theorem receive_without_background_keeps_retrying :
    (layer.play demo_ops ⟨1, frame_producer.empty, 1, some 3, false⟩
        demo_heap).1.auto_play_delta_ = some 3 ∧
      layer.receive demo_ops 2 0 ⟨1, frame_producer.empty, 0, some 3, false⟩ demo_heap = none ∧
      layer.receive demo_ops (2 ^ 62) 0 ⟨1, frame_producer.empty, 0, some 3, false⟩ demo_heap =
        none := by
  refine ⟨by decide, ?_, ?_⟩
  · exact receive_retries_without_background 2 0 demo_heap (le_refl _) (by norm_num)
  · exact receive_retries_without_background (2 ^ 62) 0 demo_heap (le_refl _) (by norm_num)

/-- C3 (amended). For every layer state in which a background producer is
pending or no auto-play delta is set, `receive` returns with at most one
nested retry: it calls `play` at most once; when it has called `play`, the
nested call ran on the layer that `play` left, with the old background as
foreground and no auto-play delta, did not call `play` again, and no delta is
set afterwards. -/
theorem receive_retries_at_most_once {σ : Type} (ops : producer_ops σ) (fuel : Nat)
    (flags : Int) (l : layer) (h : Nat → σ)
    (hl : l.background_ ≠ frame_producer.empty ∨ l.auto_play_delta_ = none) :
    ∃ r, layer.receive ops (fuel + 2) flags l h = some r ∧
      r.log.count event.play ≤ 1 ∧
      (event.play ∈ r.log →
        r.l.auto_play_delta_ = none ∧
        ∃ h1 r1 post,
          (layer.play ops { l with frame_number_ := wrap64 (l.frame_number_ + 1) } h1).1 =
            ⟨l.background_, frame_producer.empty, 0, none, false⟩ ∧
          layer.receive ops (fuel + 1) flags
              ⟨l.background_, frame_producer.empty, 0, none, false⟩
              (layer.play ops { l with frame_number_ := wrap64 (l.frame_number_ + 1) } h1).2 =
            some r1 ∧
          event.play ∉ r1.log ∧ r.log = post ++ [event.play] ++ r1.log) := by
  obtain ⟨r, hr⟩ := receive_total ops fuel flags l h hl
  refine ⟨r, hr, ?_⟩
  rw [receive_succ] at hr
  cases ha : layer.try_block ops (fun l1 h1 => layer.receive ops (fuel + 1) flags l1 h1)
      flags l h with
  | none => rw [ha] at hr; simp at hr
  | some a =>
    rw [ha] at hr
    simp only [Option.map, Option.some.injEq] at hr
    subst hr
    have hlog : ∀ e : event, (∀ c, e ≠ .fault c) →
        (layer.catch_all a).log.count e = a.log.count e := by
      intro e he
      unfold layer.catch_all
      cases a.outcome with
      | ok f => rfl
      | error c =>
        simp only [List.count_append]
        rw [List.count_eq_zero_of_not_mem (a := e) (l := [event.fault c])
          (by simp only [List.mem_singleton]; exact he c)]
        rfl
    rcases try_block_play_cases ops _ flags l h a ha with hno | ⟨h1, r1, hr1, ho, hl1, hlg⟩
    · constructor
      · rw [hlog _ (by intro c; simp), List.count_eq_zero_of_not_mem hno]
        omega
      · intro hp
        rw [catch_all_log a _ (by intro c; simp)] at hp
        exact absurd hp hno
    · -- the auto-play branch: a background must be pending
      have hb : l.background_ ≠ frame_producer.empty := by
        rcases hl with hb | hd
        · exact hb
        · exfalso
          obtain ⟨a2, ha2, _, hp2⟩ := try_block_unarmed ops
            (fun l1 h1 => layer.receive ops (fuel + 1) flags l1 h1) flags l h hd
          rw [ha] at ha2
          simp only [Option.some.injEq] at ha2
          subst ha2
          rw [hlg] at hp2
          simp at hp2
      have hplay : (layer.play ops { l with frame_number_ := wrap64 (l.frame_number_ + 1) }
          h1).1 = ⟨l.background_, frame_producer.empty, 0, none, false⟩ := by
        simp [layer.play, hb, layer.resume]
      simp only [hplay] at hr1
      obtain ⟨r2, hr2, hd2, hp2⟩ := receive_unarmed ops fuel flags
        ⟨l.background_, frame_producer.empty, 0, none, false⟩
        (layer.play ops { l with frame_number_ := wrap64 (l.frame_number_ + 1) } h1).2 rfl
      rw [hr1] at hr2
      simp only [Option.some.injEq] at hr2
      subst hr2
      have hcatch : layer.catch_all a = ⟨r1.frame, a.l, a.heap, a.log⟩ := by
        unfold layer.catch_all
        rw [ho]
      refine ⟨?_, ?_⟩
      · rw [hcatch]
        simp only [hlg, List.count_append, List.count_eq_zero_of_not_mem hp2]
        simp [List.count_cons]
      · intro _
        refine ⟨?_, h1, r1, [.pull l.foreground_, .nb_frames l.foreground_], hplay, hr1, hp2, ?_⟩
        · rw [hcatch]
          simp only []
          rw [hl1]
          exact hd2
        · rw [hcatch]
          simp only [hlg]
          rfl

/-- Witness for C3: producer 2 is pending behind producer 1 with delta 1 and
the threshold is reached; one nested retry, one call of `play`. -/
theorem receive_retries_at_most_once_witness :
    ∃ r, layer.receive demo_ops (0 + 2) 0 ⟨1, 2, 1, some 1, false⟩ demo_heap = some r ∧
      r.log.count event.play ≤ 1 ∧
      (event.play ∈ r.log →
        r.l.auto_play_delta_ = none ∧
        ∃ h1 r1 post,
          (layer.play demo_ops
              { (⟨1, 2, 1, some 1, false⟩ : layer) with
                frame_number_ := wrap64 ((⟨1, 2, 1, some 1, false⟩ : layer).frame_number_ + 1) }
              h1).1 =
            ⟨(⟨1, 2, 1, some 1, false⟩ : layer).background_, frame_producer.empty, 0, none,
              false⟩ ∧
          layer.receive demo_ops (0 + 1) 0
              ⟨(⟨1, 2, 1, some 1, false⟩ : layer).background_, frame_producer.empty, 0, none,
                false⟩
              (layer.play demo_ops
                { (⟨1, 2, 1, some 1, false⟩ : layer) with
                  frame_number_ :=
                    wrap64 ((⟨1, 2, 1, some 1, false⟩ : layer).frame_number_ + 1) }
                h1).2 =
            some r1 ∧
          event.play ∉ r1.log ∧ r.log = post ++ [event.play] ++ r1.log) :=
  receive_retries_at_most_once demo_ops 0 0 ⟨1, 2, 1, some 1, false⟩ demo_heap
    (Or.inl (by decide))

/-- C6. Fault isolation of `receive`, for every layer state, heap and flags.
The result type has no exception: nothing is thrown to the caller.  The call
returns with at most one nested retry whenever a background is pending or no
delta is set.  Every producer call that `receive` makes is covered, with the
exact result.  When it throws, the result is the empty frame and the stopped
layer (empty producer as foreground, frame number 0, no delta, paused, the
background kept), with the fault as last event: `last_frame` on a paused
layer, the pull, `last_frame` after a late pull, `nb_frames` on an armed
layer.  When none throws and the threshold is not reached, the frame is
returned and no fault is recorded.  At the threshold the result is the one of
the nested call made after `play()`, so a call that throws inside the retry
ends that nested call in the same way.  Hence whenever the call returns after
any producer call has thrown, at any nesting depth, the frame is the empty
frame and the layer is the stopped one; the next `receive` then returns
without pulling a frame from any producer. -/
theorem receive_isolates_faults {σ : Type} (ops : producer_ops σ) (fuel : Nat) (flags : Int)
    (l : layer) (h : Nat → σ) :
    ((l.background_ ≠ frame_producer.empty ∨ l.auto_play_delta_ = none) →
        ∃ r, layer.receive ops (fuel + 2) flags l h = some r) ∧
      -- paused: `last_frame` throws
      (∀ c, l.is_paused_ = true → ops.last_frame (h l.foreground_) = .error c →
        layer.receive ops (fuel + 1) flags l h =
          some { frame := .empty, l := l.stop, heap := h,
                 log := [.last_frame l.foreground_, .fault c] }) ∧
      -- the pull throws
      (∀ c st, l.is_paused_ = false → ops.receive (h l.foreground_) flags = (.error c, st) →
        layer.receive ops (fuel + 1) flags l h =
          some { frame := .empty, l := l.stop, heap := Function.update h l.foreground_ st,
                 log := [.pull l.foreground_, .fault c] }) ∧
      -- the pull is late and `last_frame` throws
      (∀ c st, l.is_paused_ = false →
        ops.receive (h l.foreground_) flags = (.ok draw_frame.late, st) →
        ops.last_frame st = .error c →
        layer.receive ops (fuel + 1) flags l h =
          some { frame := .empty, l := l.stop, heap := Function.update h l.foreground_ st,
                 log := [.pull l.foreground_, .last_frame l.foreground_, .fault c] }) ∧
      -- a frame is pulled, a delta is set and `nb_frames` throws
      (∀ c st frame d, l.is_paused_ = false →
        ops.receive (h l.foreground_) flags = (.ok frame, st) → frame ≠ draw_frame.late →
        l.auto_play_delta_ = some d → ops.nb_frames st = .error c →
        layer.receive ops (fuel + 1) flags l h =
          some { frame := .empty, l := l.stop, heap := Function.update h l.foreground_ st,
                 log := [.pull l.foreground_, .nb_frames l.foreground_, .fault c] }) ∧
      -- the threshold is reached: the result of the nested call after `play()`
      (∀ st frame d nb, l.is_paused_ = false →
        ops.receive (h l.foreground_) flags = (.ok frame, st) → frame ≠ draw_frame.late →
        l.auto_play_delta_ = some d → ops.nb_frames st = .ok nb →
        frames_left nb (wrap64 (l.frame_number_ + 1)) d < 1 →
        layer.receive ops (fuel + 1) flags l h =
          (layer.receive ops fuel flags
            (layer.play ops { l with frame_number_ := wrap64 (l.frame_number_ + 1) }
              (Function.update h l.foreground_ st)).1
            (layer.play ops { l with frame_number_ := wrap64 (l.frame_number_ + 1) }
              (Function.update h l.foreground_ st)).2).map
            (fun r => { r with
              log := [.pull l.foreground_, .nb_frames l.foreground_, .play] ++ r.log })) ∧
      -- nothing throws, no delta: the frame
      (∀ st frame, l.is_paused_ = false →
        ops.receive (h l.foreground_) flags = (.ok frame, st) → frame ≠ draw_frame.late →
        l.auto_play_delta_ = none →
        layer.receive ops (fuel + 1) flags l h =
          some { frame := frame, l := l, heap := Function.update h l.foreground_ st,
                 log := [.pull l.foreground_] }) ∧
      -- nothing throws, below the threshold: the frame, one more frame counted
      (∀ st frame d nb, l.is_paused_ = false →
        ops.receive (h l.foreground_) flags = (.ok frame, st) → frame ≠ draw_frame.late →
        l.auto_play_delta_ = some d → ops.nb_frames st = .ok nb →
        ¬ frames_left nb (wrap64 (l.frame_number_ + 1)) d < 1 →
        layer.receive ops (fuel + 1) flags l h =
          some { frame := frame, l := { l with frame_number_ := wrap64 (l.frame_number_ + 1) },
                 heap := Function.update h l.foreground_ st,
                 log := [.pull l.foreground_, .nb_frames l.foreground_] }) ∧
      -- after a fault at any depth
      ∀ r, layer.receive ops fuel flags l h = some r → (∃ c, event.fault c ∈ r.log) →
        r.frame = draw_frame.empty ∧ r.l.foreground_ = frame_producer.empty ∧
          r.l.frame_number_ = 0 ∧ r.l.auto_play_delta_ = none ∧ r.l.is_paused_ = true ∧
          ∃ r2, layer.receive ops 1 flags r.l r.heap = some r2 ∧
            ∀ p, event.pull p ∉ r2.log := by
  refine ⟨receive_total ops fuel flags l h, ?_, ?_, ?_, ?_, ?_, ?_, ?_, ?_⟩
  · intro c hp hr
    rw [receive_succ]
    unfold layer.try_block
    simp only [hp, if_true, hr]
    rfl
  · intro c st hp hr
    rw [receive_succ]
    unfold layer.try_block
    simp only [hp, Bool.false_eq_true, if_false, receive_and_follow, hr]
    rfl
  · intro c st hp hr hl
    rw [receive_succ]
    unfold layer.try_block
    simp only [hp, Bool.false_eq_true, if_false, receive_and_follow, hr, if_true,
      Function.update_same, hl]
    rfl
  · intro c st frame d hp hr hl hd hn
    rw [receive_succ]
    unfold layer.try_block
    simp only [hp, Bool.false_eq_true, if_false, receive_and_follow, hr, hl, hd,
      Function.update_same, hn]
    rfl
  · intro st frame d nb hp hr hl hd hn hf
    rw [receive_succ, try_block_retry ops _ flags l h frame st d nb hp hr hl hd hn hf]
    cases layer.receive ops fuel flags
        (layer.play ops { l with frame_number_ := wrap64 (l.frame_number_ + 1) }
          (Function.update h l.foreground_ st)).1
        (layer.play ops { l with frame_number_ := wrap64 (l.frame_number_ + 1) }
          (Function.update h l.foreground_ st)).2 <;> rfl
  · intro st frame hp hr hl hd
    rw [receive_succ]
    unfold layer.try_block
    simp only [hp, Bool.false_eq_true, if_false, receive_and_follow, hr, hl, hd]
    rfl
  · intro st frame d nb hp hr hl hd hn hf
    rw [receive_succ, try_block_continue ops _ flags l h frame st d nb hp hr hl hd hn hf]
    rfl
  · intro r hr hfault
    obtain ⟨h1, h2, h3, h4, h5⟩ := receive_fault ops flags fuel l h r hr hfault
    exact ⟨h1, h2, h3, h4, h5, receive_paused ops 0 flags r.l r.heap h5⟩

/-- Witness for C6 on the example producers: a throwing pull; a late pull
followed by a throwing `last_frame`; a throwing `nb_frames` on an armed layer;
and the general statement after the throwing pull. -/
theorem receive_isolates_faults_witness :
    layer.receive faulty_ops (0 + 1) 0 ⟨1, 2, 4, none, false⟩ (fun _ => 5) =
        some { frame := .empty, l := layer.stop ⟨1, 2, 4, none, false⟩,
               heap := Function.update (fun _ => 5) 1 5, log := [.pull 1, .fault 13] } ∧
      layer.receive broken_ops (0 + 1) 0 ⟨1, 2, 4, some 1, false⟩ (fun _ => 0) =
        some { frame := .empty, l := layer.stop ⟨1, 2, 4, some 1, false⟩,
               heap := Function.update (fun _ => 0) 1 1,
               log := [.pull 1, .last_frame 1, .fault 21] } ∧
      layer.receive broken_ops (0 + 1) 0 ⟨1, 2, 4, some 1, false⟩ (fun _ => 3) =
        some { frame := .empty, l := layer.stop ⟨1, 2, 4, some 1, false⟩,
               heap := Function.update (fun _ => 3) 1 4,
               log := [.pull 1, .nb_frames 1, .fault 22] } ∧
      (layer.stop ⟨1, 2, 4, some 1, false⟩ = ⟨frame_producer.empty, 2, 0, none, true⟩) ∧
      ((⟨.empty, layer.stop ⟨1, 2, 4, none, false⟩, Function.update (fun _ => 5) 1 5,
          [.pull 1, .fault 13]⟩ : receive_result Nat).frame = draw_frame.empty ∧
        (layer.stop ⟨1, 2, 4, none, false⟩).foreground_ = frame_producer.empty ∧
        (layer.stop ⟨1, 2, 4, none, false⟩).frame_number_ = 0 ∧
        (layer.stop ⟨1, 2, 4, none, false⟩).auto_play_delta_ = none ∧
        (layer.stop ⟨1, 2, 4, none, false⟩).is_paused_ = true ∧
        ∃ r2, layer.receive faulty_ops 1 0 (layer.stop ⟨1, 2, 4, none, false⟩)
            (Function.update (fun _ => 5) 1 5) = some r2 ∧
          ∀ p, event.pull p ∉ r2.log) :=
  ⟨(receive_isolates_faults faulty_ops 0 0 ⟨1, 2, 4, none, false⟩ (fun _ => 5)).2.2.1
      13 5 rfl rfl,
    (receive_isolates_faults broken_ops 0 0 ⟨1, 2, 4, some 1, false⟩ (fun _ => 0)).2.2.2.1
      21 1 rfl rfl rfl,
    (receive_isolates_faults broken_ops 0 0 ⟨1, 2, 4, some 1, false⟩ (fun _ => 3)).2.2.2.2.1
      22 4 (.picture 3) 1 rfl rfl (by decide) rfl rfl,
    rfl,
    (receive_isolates_faults faulty_ops 1 0 ⟨1, 2, 4, none, false⟩
      (fun _ => 5)).2.2.2.2.2.2.2.2
      ⟨.empty, layer.stop ⟨1, 2, 4, none, false⟩, Function.update (fun _ => 5) 1 5,
        [.pull 1, .fault 13]⟩ rfl ⟨13, by decide⟩⟩

/-- Without an auto-play delta and not paused, the first event of `receive`
is the pull from the foreground. -/
theorem receive_unarmed_first_event {σ : Type} (ops : producer_ops σ) (fuel : Nat)
    (flags : Int) (l : layer) (h : Nat → σ) (hd : l.auto_play_delta_ = none)
    (hp : l.is_paused_ = false) (r : receive_result σ)
    (hr : layer.receive ops (fuel + 1) flags l h = some r) :
    ∃ post, r.log = event.pull l.foreground_ :: post := by
  obtain ⟨fg, bg, fn, delta, paused⟩ := l
  simp only [] at hd hp
  subst hd; subst hp
  rw [receive_succ] at hr
  unfold layer.try_block at hr
  simp only [Bool.false_eq_true, if_false] at hr
  rcases hx : receive_and_follow ops h fg flags with ⟨res, h1⟩
  rw [hx] at hr
  cases res with
  | error c =>
    simp only [Option.map, Option.some.injEq] at hr
    subst hr
    exact ⟨_, rfl⟩
  | ok frame =>
    simp only [] at hr
    by_cases hl : frame = draw_frame.late
    · simp only [hl, if_true, Option.map, Option.some.injEq] at hr
      subst hr
      unfold layer.catch_all
      cases ops.last_frame (h1 fg) <;> exact ⟨_, rfl⟩
    · simp only [hl, if_false, Option.map, Option.some.injEq] at hr
      subst hr
      exact ⟨_, rfl⟩

/-- Without an auto-play delta, any number of `receive` calls return, call no
`play`, leave the delta unset, and leave the layer as it is unless a producer
call throws. -/
theorem receive_n_unarmed_layer {σ : Type} (ops : producer_ops σ) (fuel : Nat) (flags : Int) :
    ∀ (m : Nat) (l : layer) (h : Nat → σ), l.auto_play_delta_ = none →
      ∃ l2 h2 lg, layer.receive_n ops (fuel + 1) flags m l h = some (l2, h2, lg) ∧
        l2.auto_play_delta_ = none ∧ event.play ∉ lg ∧
        (l2 = l ∨ ∃ c, event.fault c ∈ lg) := by
  intro m
  induction m with
  | zero => intro l h hd; exact ⟨l, h, [], rfl, hd, by simp, Or.inl rfl⟩
  | succ m ih =>
    intro l h hd
    obtain ⟨r, hr, hrd, hrp⟩ := receive_unarmed ops fuel flags l h hd
    have hrl := receive_unarmed_layer ops fuel flags l h hd r hr
    obtain ⟨l2, h2, lg, hn, hd2, hc, hl2⟩ := ih r.l r.heap hrd
    refine ⟨l2, h2, r.log ++ lg, ?_, hd2, ?_, ?_⟩
    · simp only [layer.receive_n, hr, hn]
    · intro hmem
      rcases List.mem_append.1 hmem with hm | hm
      · exact hrp hm
      · exact hc hm
    · rcases hl2 with hl2 | ⟨c, hc2⟩
      · rcases hrl with hrl | ⟨c, hc1⟩
        · left; rw [hl2, hrl]
        · right; exact ⟨c, List.mem_append_left _ hc1⟩
      · right; exact ⟨c, List.mem_append_right _ hc2⟩

/-- An armed layer below the threshold: `receive` returns the pulled frame,
increments the frame number and calls no `play`. -/
theorem receive_armed_continue {σ : Type} (ops : producer_ops σ) (I : σ → Prop) (N d : Int)
    (flags : Int)
    (hrecv : ∀ st, I st → ∃ f st', ops.receive st flags = (.ok f, st') ∧
      f ≠ draw_frame.late ∧ I st')
    (hnb : ∀ st, I st → ops.nb_frames st = .ok N)
    (fuel : Nat) (fg P : Nat) (k : Int) (h : Nat → σ) (hI : I (h fg))
    (hf : ¬ frames_left N (wrap64 (k + 1)) d < 1) :
    ∃ r, layer.receive ops (fuel + 1) flags ⟨fg, P, k, some d, false⟩ h = some r ∧
      r.l = ⟨fg, P, wrap64 (k + 1), some d, false⟩ ∧ I (r.heap fg) ∧
      r.log = [.pull fg, .nb_frames fg] := by
  obtain ⟨f, st, h1, h2, h3⟩ := hrecv _ hI
  have ha := try_block_continue ops (fun l1 h1 => layer.receive ops fuel flags l1 h1) flags
    ⟨fg, P, k, some d, false⟩ h f st d N rfl h1 h2 rfl (hnb _ h3) hf
  refine ⟨_, by rw [receive_succ, ha]; rfl, rfl, ?_, rfl⟩
  simp only [layer.catch_all]
  rw [Function.update_same]
  exact h3

/-- An armed layer at the threshold, with a background that is not the empty
producer: `receive` returns after one nested retry; its events are the pull,
`nb_frames`, `play`, the pull from the new foreground, and then no further
`play`; no auto-play delta is left; the layer is the one that plays the old
background unless a producer call has thrown. -/
theorem receive_armed_trigger_layer {σ : Type} (ops : producer_ops σ) (I : σ → Prop)
    (N d : Int) (flags : Int)
    (hrecv : ∀ st, I st → ∃ f st', ops.receive st flags = (.ok f, st') ∧
      f ≠ draw_frame.late ∧ I st')
    (hnb : ∀ st, I st → ops.nb_frames st = .ok N)
    (fuel : Nat) (fg P : Nat) (hP : P ≠ frame_producer.empty) (k : Int) (h : Nat → σ)
    (hI : I (h fg)) (hf : frames_left N (wrap64 (k + 1)) d < 1) :
    ∃ r, layer.receive ops (fuel + 2) flags ⟨fg, P, k, some d, false⟩ h = some r ∧
      r.l.auto_play_delta_ = none ∧
      (r.l = ⟨P, frame_producer.empty, 0, none, false⟩ ∨ ∃ c, event.fault c ∈ r.log) ∧
      ∃ post, r.log = [.pull fg, .nb_frames fg, .play, .pull P] ++ post ∧
        event.play ∉ post := by
  obtain ⟨f, st, h1, h2, h3⟩ := hrecv _ hI
  have ha := try_block_retry ops (fun l1 h1 => layer.receive ops (fuel + 1) flags l1 h1) flags
    ⟨fg, P, k, some d, false⟩ h f st d N rfl h1 h2 rfl (hnb _ h3) hf
  have hplay : (layer.play ops ⟨fg, P, wrap64 (k + 1), some d, false⟩
      (Function.update h fg st)).1 = ⟨P, frame_producer.empty, 0, none, false⟩ := by
    simp [layer.play, hP, layer.resume]
  simp only [hplay] at ha
  obtain ⟨r, hr, hrd, hrp⟩ := receive_unarmed ops fuel flags
    ⟨P, frame_producer.empty, 0, none, false⟩
    (layer.play ops ⟨fg, P, wrap64 (k + 1), some d, false⟩ (Function.update h fg st)).2 rfl
  have hrl := receive_unarmed_layer ops fuel flags _ _ rfl r hr
  obtain ⟨post, hpost⟩ := receive_unarmed_first_event ops fuel flags _ _ rfl rfl r hr
  rw [hr] at ha
  refine ⟨_, by rw [receive_succ, ha]; rfl, ?_, ?_, ?_⟩
  · simp only [layer.catch_all]
    exact hrd
  · simp only [layer.catch_all]
    rcases hrl with hrl | ⟨c, hc⟩
    · left; exact hrl
    · right; exact ⟨c, List.mem_append_right _ hc⟩
  · refine ⟨post, ?_, ?_⟩
    · simp only [layer.catch_all]
      rw [hpost]
      rfl
    · intro hmem
      apply hrp
      rw [hpost]
      exact List.mem_cons_of_mem _ hmem

/-- Successive `receive` calls on an armed layer whose foreground always
delivers a frame and reports `N` frames, call `j + 1` being the first one at
the threshold: the first `j` calls pull and ask `nb_frames` and nothing else;
call `j + 1` calls `play` and pulls from the new foreground; no later call
calls `play`. -/
theorem receive_n_armed {σ : Type} (ops : producer_ops σ) (I : σ → Prop) (N d : Int)
    (flags : Int)
    (hrecv : ∀ st, I st → ∃ f st', ops.receive st flags = (.ok f, st') ∧
      f ≠ draw_frame.late ∧ I st')
    (hnb : ∀ st, I st → ops.nb_frames st = .ok N)
    (fg P : Nat) (hP : P ≠ frame_producer.empty) :
    ∀ (m j : Nat) (k : Int) (h : Nat → σ), I (h fg) →
      (∀ i, i < j → ¬ frames_left N (frame_number_after k (i + 1)) d < 1) →
      frames_left N (frame_number_after k (j + 1)) d < 1 →
      ∃ l2 h2 lg,
        layer.receive_n ops 2 flags m ⟨fg, P, k, some d, false⟩ h = some (l2, h2, lg) ∧
        (m ≤ j → l2 = ⟨fg, P, frame_number_after k m, some d, false⟩ ∧
          lg = (List.replicate m [event.pull fg, event.nb_frames fg]).flatten) ∧
        (j + 1 ≤ m → l2.auto_play_delta_ = none ∧
          (l2 = ⟨P, frame_producer.empty, 0, none, false⟩ ∨ ∃ c, event.fault c ∈ lg) ∧
          ∃ post, lg = (List.replicate j [event.pull fg, event.nb_frames fg]).flatten ++
              [event.pull fg, event.nb_frames fg, event.play, event.pull P] ++ post ∧
            event.play ∉ post) := by
  intro m
  induction m with
  | zero =>
    intro j k h _ _ _
    exact ⟨_, h, [], rfl, fun _ => ⟨rfl, rfl⟩, fun hj => by omega⟩
  | succ m ih =>
    intro j k h hI hbefore hat
    cases j with
    | zero =>
      obtain ⟨r, hr, hd, hl, post, hpost, hpp⟩ :=
        receive_armed_trigger_layer ops I N d flags hrecv hnb 0 fg P hP k h hI hat
      obtain ⟨l2, h2, lg, hn, hd2, hc2, hl2⟩ :=
        receive_n_unarmed_layer ops 1 flags m r.l r.heap hd
      refine ⟨l2, h2, r.log ++ lg, ?_, ?_, fun _ => ⟨hd2, ?_, post ++ lg, ?_, ?_⟩⟩
      · simp only [layer.receive_n, hr, hn]
      · intro hm; omega
      · rcases hl2 with hl2 | ⟨c, hc⟩
        · rcases hl with hl | ⟨c, hc⟩
          · left; rw [hl2, hl]
          · right; exact ⟨c, List.mem_append_left _ hc⟩
        · right; exact ⟨c, List.mem_append_right _ hc⟩
      · rw [hpost]; simp
      · intro hmem
        rcases List.mem_append.1 hmem with hm | hm
        · exact hpp hm
        · exact hc2 hm
    | succ j =>
      obtain ⟨r, hr, hl, hI2, hlog⟩ :=
        receive_armed_continue ops I N d flags hrecv hnb 1 fg P k h hI (hbefore 0 (by omega))
      obtain ⟨l2, h2, lg, hn, h1, h2'⟩ := ih j (wrap64 (k + 1)) r.heap hI2
        (fun i hi => hbefore (i + 1) (by omega)) hat
      rw [← hl] at hn
      refine ⟨l2, h2, r.log ++ lg, ?_, ?_, ?_⟩
      · simp only [layer.receive_n, hr, hn]
      · intro hm
        obtain ⟨e1, e2⟩ := h1 (by omega)
        refine ⟨e1, ?_⟩
        rw [e2, hlog, List.replicate_succ, List.flatten_cons]
      · intro hm
        obtain ⟨hd2, hl2, post, hpp, hnp⟩ := h2' (by omega)
        refine ⟨hd2, ?_, post, ?_, hnp⟩
        · rcases hl2 with hl2 | ⟨c, hc⟩
          · left; exact hl2
          · right; exact ⟨c, List.mem_append_right _ hc⟩
        · rw [hpp, hlog, List.replicate_succ, List.flatten_cons]
          simp

theorem load_on_playing_layer {σ : Type} (ops : producer_ops σ) (P : Nat) (delta : Option Int)
    (l : layer) (h : Nat → σ) (hfg : l.foreground_ ≠ frame_producer.empty) :
    l.load ops P delta h = ({ l with background_ := P, auto_play_delta_ := delta }, h) := by
  simp [layer.load, hfg]

/-- While no increment overflows, the frame number after `i` increments from
`k` is `k + i`. -/
theorem frame_number_after_eq (k : Int) :
    ∀ i : Nat, (∀ n : Nat, 1 ≤ n → n ≤ i → int64_range (k + n)) →
      frame_number_after k i = k + i := by
  intro i
  induction i with
  | zero => intro _; simp [frame_number_after]
  | succ i ih =>
    intro hr
    have h1 := ih (fun n h1 h2 => hr n h1 (by omega))
    have h2 := hr (i + 1) (by omega) (by omega)
    unfold frame_number_after at h1 ⊢
    rw [Function.iterate_succ_apply', h1]
    unfold int64_range at h2
    rw [wrap64_of_range _ (by push_cast at h2; omega) (by push_cast at h2; omega)]
    push_cast
    omega

/-- While no step of the arithmetic overflows, `frames_left` is the difference
`nb_frames - frame_number - delta`. -/
theorem frames_left_eq (N fn d : Int) (hN : int64_range N) (hd : int64_range d)
    (h1 : int64_range (N - fn)) (h2 : int64_range (N - fn - d)) :
    frames_left N fn d = N - fn - d := by
  unfold int64_range at hN hd h1 h2
  unfold frames_left
  rw [wrap64_of_range N hN.1 hN.2, wrap64_of_range d hd.1 hd.2,
    wrap64_of_range (N - fn) h1.1 h1.2, wrap64_of_range (N - fn - d) h2.1 h2.2]

theorem play_not_mem_replicate (fg m : Nat) :
    event.play ∉ (List.replicate m [event.pull fg, event.nb_frames fg]).flatten := by
  induction m with
  | zero => simp
  | succ m ih =>
    rw [List.replicate_succ, List.flatten_cons]
    intro hmem
    rcases List.mem_append.1 hmem with hm | hm
    · simp at hm
    · exact ih hm

/-- C7. A playing, unpaused layer with frame number `k`, whose foreground
always delivers a frame (never late, never throwing) and always reports `N`
frames; `load(P, d)` arms a producer `P` other than the empty one.  Let call
`j + 1` be the first `receive` after the load at which `N - (k + i) - d` is
below 1, where `k + i` is the frame number after the increment of call `i`;
`N`, `d` and every intermediate value of that arithmetic up to call `j + 1`
are values of `int64_t`, so that the code does not overflow.  Then for every
number `m` of successive `receive` calls: all of them return (one nested retry
at most); `play` has been called from `receive` once if `m` reaches `j + 1`
and not at all before; up to call `j` the layer is the armed one with frame
number `k + m`, and every call has pulled from the foreground and asked
`nb_frames` and done nothing else; call `j + 1` pulls, asks `nb_frames`, calls
`play` and pulls from `P`, and no later event is a call of `play`; from call
`j + 1` on no auto-play delta is set, and the layer plays `P` (foreground `P`,
no background, frame number 0, not paused) unless a pull from `P` has thrown
and stopped the layer. -/
theorem auto_play_fires_exactly_once {σ : Type} (ops : producer_ops σ) (I : σ → Prop)
    (N d : Int) (flags : Int)
    (hrecv : ∀ st, I st → ∃ f st', ops.receive st flags = (.ok f, st') ∧
      f ≠ draw_frame.late ∧ I st')
    (hnb : ∀ st, I st → ops.nb_frames st = .ok N)
    (l0 : layer) (h0 : Nat → σ) (hfg : l0.foreground_ ≠ frame_producer.empty)
    (hplaying : l0.is_paused_ = false) (hI : I (h0 l0.foreground_))
    (P : Nat) (hP : P ≠ frame_producer.empty) (j : Nat)
    (hN : int64_range N) (hd : int64_range d)
    (hrange : ∀ i : Nat, 1 ≤ i → i ≤ j + 1 →
      int64_range (l0.frame_number_ + i) ∧ int64_range (N - (l0.frame_number_ + i)) ∧
        int64_range (N - (l0.frame_number_ + i) - d))
    (hbefore : ∀ i : Nat, 1 ≤ i → i ≤ j → 1 ≤ N - (l0.frame_number_ + i) - d)
    (hat : N - (l0.frame_number_ + (j + 1 : Nat)) - d < 1) (m : Nat) :
    ∃ l2 h2 lg,
      layer.receive_n ops 2 flags m (l0.load ops P (some d) h0).1 (l0.load ops P (some d) h0).2 =
        some (l2, h2, lg) ∧
      lg.count event.play = (if j + 1 ≤ m then 1 else 0) ∧
      (m ≤ j →
        l2 = { l0 with background_ := P, auto_play_delta_ := some d,
                       frame_number_ := l0.frame_number_ + m } ∧
        lg = (List.replicate m
          [event.pull l0.foreground_, event.nb_frames l0.foreground_]).flatten) ∧
      (j + 1 ≤ m → l2.auto_play_delta_ = none ∧
        ((∀ c, event.fault c ∉ lg) → l2 = ⟨P, frame_producer.empty, 0, none, false⟩) ∧
        ∃ post, lg = (List.replicate j
              [event.pull l0.foreground_, event.nb_frames l0.foreground_]).flatten ++
            [event.pull l0.foreground_, event.nb_frames l0.foreground_, event.play,
              event.pull P] ++ post ∧
          event.play ∉ post) := by
  rw [load_on_playing_layer ops P (some d) l0 h0 hfg]
  obtain ⟨fg, bg, k, delta, paused⟩ := l0
  simp only [] at hfg hplaying hI hrange hbefore hat ⊢
  subst hplaying
  have hfn : ∀ i : Nat, i ≤ j + 1 → frame_number_after k i = k + i := fun i hi =>
    frame_number_after_eq k i (fun n h1 h2 => (hrange n h1 (by omega)).1)
  have hfl : ∀ i : Nat, 1 ≤ i → i ≤ j + 1 →
      frames_left N (frame_number_after k i) d = N - (k + i) - d := by
    intro i h1 h2
    rw [hfn i h2]
    exact frames_left_eq N _ d hN hd (hrange i h1 h2).2.1 (hrange i h1 h2).2.2
  obtain ⟨l2, h2, lg, hn, hlow, hhigh⟩ := receive_n_armed ops I N d flags hrecv hnb fg P hP
    m j k h0 hI
    (fun i hi => by
      rw [hfl (i + 1) (by omega) (by omega)]
      have := hbefore (i + 1) (by omega) (by omega)
      omega)
    (by rw [hfl (j + 1) (by omega) (by omega)]; exact hat)
  refine ⟨l2, h2, lg, hn, ?_, ?_, ?_⟩
  · by_cases hm : j + 1 ≤ m
    · obtain ⟨_, _, post, hpost, hnp⟩ := hhigh hm
      rw [if_pos hm, hpost, List.count_append, List.count_append,
        List.count_eq_zero_of_not_mem (play_not_mem_replicate fg j),
        List.count_eq_zero_of_not_mem hnp]
      simp [List.count_cons]
    · obtain ⟨_, hlg⟩ := hlow (by omega)
      rw [if_neg hm, hlg]
      exact List.count_eq_zero_of_not_mem (play_not_mem_replicate fg m)
  · intro hm
    obtain ⟨e1, e2⟩ := hlow hm
    refine ⟨?_, e2⟩
    rw [e1, hfn m (by omega)]
  · intro hm
    obtain ⟨hd2, hl2, post, hpost, hnp⟩ := hhigh hm
    refine ⟨hd2, ?_, post, hpost, hnp⟩
    intro hno
    rcases hl2 with hl2 | ⟨c, hc⟩
    · exact hl2
    · exact absurd hc (hno c)

/-- Witness for C7: producer 1 reports three frames and the layer has frame
number 0; producer 2 is loaded with delta 1.  The first `receive` is below the
threshold (3 - 1 - 1 = 1), the second one is at it (3 - 2 - 1 = 0): one call
has called no `play`, two calls and five calls have called it once, from the
second call. -/
theorem auto_play_fires_exactly_once_witness :
    (∃ l2 h2 lg,
      layer.receive_n demo_ops 2 0 1
          (layer.load demo_ops 2 (some 1) ⟨1, 0, 0, none, false⟩ demo_heap).1
          (layer.load demo_ops 2 (some 1) ⟨1, 0, 0, none, false⟩ demo_heap).2 =
        some (l2, h2, lg) ∧
      lg.count event.play = (if 1 + 1 ≤ 1 then 1 else 0) ∧
      (1 ≤ 1 →
        l2 = { (⟨1, 0, 0, none, false⟩ : layer) with
            background_ := 2, auto_play_delta_ := some 1,
            frame_number_ := (⟨1, 0, 0, none, false⟩ : layer).frame_number_ + (1 : Nat) } ∧
        lg = (List.replicate 1
          [event.pull (⟨1, 0, 0, none, false⟩ : layer).foreground_,
            event.nb_frames (⟨1, 0, 0, none, false⟩ : layer).foreground_]).flatten) ∧
      (1 + 1 ≤ 1 → l2.auto_play_delta_ = none ∧
        ((∀ c, event.fault c ∉ lg) → l2 = ⟨2, frame_producer.empty, 0, none, false⟩) ∧
        ∃ post, lg = (List.replicate 1
              [event.pull (⟨1, 0, 0, none, false⟩ : layer).foreground_,
                event.nb_frames (⟨1, 0, 0, none, false⟩ : layer).foreground_]).flatten ++
            [event.pull (⟨1, 0, 0, none, false⟩ : layer).foreground_,
              event.nb_frames (⟨1, 0, 0, none, false⟩ : layer).foreground_, event.play,
              event.pull 2] ++ post ∧
          event.play ∉ post)) ∧
    (∃ l2 h2 lg,
      layer.receive_n demo_ops 2 0 2
          (layer.load demo_ops 2 (some 1) ⟨1, 0, 0, none, false⟩ demo_heap).1
          (layer.load demo_ops 2 (some 1) ⟨1, 0, 0, none, false⟩ demo_heap).2 =
        some (l2, h2, lg) ∧
      lg.count event.play = (if 1 + 1 ≤ 2 then 1 else 0) ∧
      (2 ≤ 1 →
        l2 = { (⟨1, 0, 0, none, false⟩ : layer) with
            background_ := 2, auto_play_delta_ := some 1,
            frame_number_ := (⟨1, 0, 0, none, false⟩ : layer).frame_number_ + (2 : Nat) } ∧
        lg = (List.replicate 2
          [event.pull (⟨1, 0, 0, none, false⟩ : layer).foreground_,
            event.nb_frames (⟨1, 0, 0, none, false⟩ : layer).foreground_]).flatten) ∧
      (1 + 1 ≤ 2 → l2.auto_play_delta_ = none ∧
        ((∀ c, event.fault c ∉ lg) → l2 = ⟨2, frame_producer.empty, 0, none, false⟩) ∧
        ∃ post, lg = (List.replicate 1
              [event.pull (⟨1, 0, 0, none, false⟩ : layer).foreground_,
                event.nb_frames (⟨1, 0, 0, none, false⟩ : layer).foreground_]).flatten ++
            [event.pull (⟨1, 0, 0, none, false⟩ : layer).foreground_,
              event.nb_frames (⟨1, 0, 0, none, false⟩ : layer).foreground_, event.play,
              event.pull 2] ++ post ∧
          event.play ∉ post)) ∧
    (∃ l2 h2 lg,
      layer.receive_n demo_ops 2 0 5
          (layer.load demo_ops 2 (some 1) ⟨1, 0, 0, none, false⟩ demo_heap).1
          (layer.load demo_ops 2 (some 1) ⟨1, 0, 0, none, false⟩ demo_heap).2 =
        some (l2, h2, lg) ∧
      lg.count event.play = (if 1 + 1 ≤ 5 then 1 else 0) ∧
      (5 ≤ 1 →
        l2 = { (⟨1, 0, 0, none, false⟩ : layer) with
            background_ := 2, auto_play_delta_ := some 1,
            frame_number_ := (⟨1, 0, 0, none, false⟩ : layer).frame_number_ + (5 : Nat) } ∧
        lg = (List.replicate 5
          [event.pull (⟨1, 0, 0, none, false⟩ : layer).foreground_,
            event.nb_frames (⟨1, 0, 0, none, false⟩ : layer).foreground_]).flatten) ∧
      (1 + 1 ≤ 5 → l2.auto_play_delta_ = none ∧
        ((∀ c, event.fault c ∉ lg) → l2 = ⟨2, frame_producer.empty, 0, none, false⟩) ∧
        ∃ post, lg = (List.replicate 1
              [event.pull (⟨1, 0, 0, none, false⟩ : layer).foreground_,
                event.nb_frames (⟨1, 0, 0, none, false⟩ : layer).foreground_]).flatten ++
            [event.pull (⟨1, 0, 0, none, false⟩ : layer).foreground_,
              event.nb_frames (⟨1, 0, 0, none, false⟩ : layer).foreground_, event.play,
              event.pull 2] ++ post ∧
          event.play ∉ post)) ∧
    (layer.receive_n demo_ops 2 0 5
        (layer.load demo_ops 2 (some 1) ⟨1, 0, 0, none, false⟩ demo_heap).1
        (layer.load demo_ops 2 (some 1) ⟨1, 0, 0, none, false⟩ demo_heap).2).map
      (fun r => (r.1, r.2.2)) =
      some (⟨2, 0, 0, none, false⟩,
        [.pull 1, .nb_frames 1, .pull 1, .nb_frames 1, .play, .pull 2, .pull 2, .pull 2,
          .pull 2]) :=
  ⟨(auto_play_fires_exactly_once demo_ops (fun _ => True) 3 1 0
      (fun st _ => ⟨.picture st, st + 1, rfl, by simp, trivial⟩) (fun _ _ => rfl)
      ⟨1, 0, 0, none, false⟩ demo_heap (by decide) rfl trivial 2 (by decide) 1
      (by decide) (by decide)
      (by
        intro i h1 h2
        interval_cases i <;> decide)
      (by
        intro i h1 h2
        interval_cases i
        decide)
      (by decide) 1),
    (auto_play_fires_exactly_once demo_ops (fun _ => True) 3 1 0
      (fun st _ => ⟨.picture st, st + 1, rfl, by simp, trivial⟩) (fun _ _ => rfl)
      ⟨1, 0, 0, none, false⟩ demo_heap (by decide) rfl trivial 2 (by decide) 1
      (by decide) (by decide)
      (by
        intro i h1 h2
        interval_cases i <;> decide)
      (by
        intro i h1 h2
        interval_cases i
        decide)
      (by decide) 2),
    (auto_play_fires_exactly_once demo_ops (fun _ => True) 3 1 0
      (fun st _ => ⟨.picture st, st + 1, rfl, by simp, trivial⟩) (fun _ _ => rfl)
      ⟨1, 0, 0, none, false⟩ demo_heap (by decide) rfl trivial 2 (by decide) 1
      (by decide) (by decide)
      (by
        intro i h1 h2
        interval_cases i <;> decide)
      (by
        intro i h1 h2
        interval_cases i
        decide)
      (by decide) 5),
    by decide⟩

/-- C11. `receive` when no new frame is shown, for every layer, heap and
flags.  On a paused layer whose `last_frame` does not throw, the result is
the silenced last frame of the foreground, the only producer call is
`last_frame` (no pull), and the layer and the heap are unchanged.  On a layer
that is not paused and whose pull returns the late marker, the result is the
silenced last frame of the foreground (taken after the pull), and every field
of the layer is unchanged, the frame number included, whether or not an
auto-play delta is set; only the object of the foreground has advanced. -/
theorem receive_without_new_frame {σ : Type} (ops : producer_ops σ) (fuel : Nat)
    (flags : Int) (l : layer) (h : Nat → σ) :
    (∀ f, l.is_paused_ = true → ops.last_frame (h l.foreground_) = .ok f →
        layer.receive ops (fuel + 1) flags l h =
          some { frame := .silence f, l := l, heap := h,
                 log := [.last_frame l.foreground_] }) ∧
      (∀ st f, l.is_paused_ = false →
        ops.receive (h l.foreground_) flags = (.ok draw_frame.late, st) →
        ops.last_frame st = .ok f →
        layer.receive ops (fuel + 1) flags l h =
          some { frame := .silence f, l := l,
                 heap := Function.update h l.foreground_ st,
                 log := [.pull l.foreground_, .last_frame l.foreground_] }) := by
  constructor
  · intro f hp hf
    rw [receive_succ]
    unfold layer.try_block
    simp only [hp, if_true, hf]
    rfl
  · intro st f hp hr hf
    rw [receive_succ]
    unfold layer.try_block
    simp only [hp, Bool.false_eq_true, if_false, receive_and_follow, hr, if_true,
      Function.update_same, hf]
    rfl

/-- Witness for C11: a paused layer on the example producers, and an armed,
unpaused layer whose foreground is never ready. -/
theorem receive_without_new_frame_witness :
    layer.receive demo_ops (0 + 1) 0 ⟨1, 2, 4, some 1, true⟩ demo_heap =
        some { frame := .silence (.picture 0), l := ⟨1, 2, 4, some 1, true⟩, heap := demo_heap,
               log := [.last_frame 1] } ∧
      layer.receive late_ops (0 + 1) 0 ⟨1, 2, 4, some 1, false⟩ demo_heap =
        some { frame := .silence (.picture 7), l := ⟨1, 2, 4, some 1, false⟩,
               heap := Function.update demo_heap 1 1,
               log := [.pull 1, .last_frame 1] } :=
  ⟨(receive_without_new_frame demo_ops 0 0 ⟨1, 2, 4, some 1, true⟩ demo_heap).1
      (.picture 0) rfl rfl,
    (receive_without_new_frame late_ops 0 0 ⟨1, 2, 4, some 1, false⟩ demo_heap).2
      1 (.picture 7) rfl rfl rfl⟩

/-- C12. `stop()` on any layer: the foreground is the empty producer, the
frame number 0, no auto-play delta is set, the layer is paused, and the
background is the one it was; a pending background other than the empty
producer is therefore put on air by a later `play()`. -/
theorem stop_keeps_background (l : layer) :
    l.stop =
        { foreground_ := frame_producer.empty, background_ := l.background_,
          frame_number_ := 0, auto_play_delta_ := none, is_paused_ := true } ∧
      ∀ {σ : Type} (ops : producer_ops σ) (h : Nat → σ),
        l.background_ ≠ frame_producer.empty →
          (l.stop.play ops h).1.foreground_ = l.background_ ∧
            (l.stop.play ops h).1.is_paused_ = false := by
  refine ⟨rfl, ?_⟩
  intro σ ops h hb
  simp [layer.stop, layer.pause, layer.play, layer.resume, hb]

/-- C20 (as stated, refuted). `load(5, 3)` on a fresh layer, whose foreground
is the empty producer: afterwards the background is the empty producer, not
producer 5, and no auto-play delta is set. -/
theorem load_to_air_clears_background_and_delta :
    (layer.create.load demo_ops 5 (some 3) demo_heap).1.background_ = frame_producer.empty ∧
      (layer.create.load demo_ops 5 (some 3) demo_heap).1.background_ ≠ 5 ∧
      (layer.create.load demo_ops 5 (some 3) demo_heap).1.auto_play_delta_ = none ∧
      (layer.create.load demo_ops 5 (some 3) demo_heap).1.auto_play_delta_ ≠ some 3 := by
  decide

/-- C20 (amended). For every layer, heap, producer `P` and optional delta:
unless a delta is given and the foreground is the empty producer, `load`
sets the background to `P`, overwrites the auto-play delta with the given one
(so a load without delta leaves none set), leaves foreground, frame number
and paused flag unchanged and touches no producer object. -/
theorem load_frame_condition {σ : Type} (ops : producer_ops σ) (P : Nat)
    (delta : Option Int) (l : layer) (h : Nat → σ)
    (hno : ¬ (delta.isSome = true ∧ l.foreground_ = frame_producer.empty)) :
    l.load ops P delta h =
        ({ foreground_ := l.foreground_, background_ := P,
           frame_number_ := l.frame_number_, auto_play_delta_ := delta,
           is_paused_ := l.is_paused_ }, h) ∧
      (l.load ops P none h).1.auto_play_delta_ = none := by
  constructor
  · unfold layer.load
    simp only [hno, if_false]
  · simp [layer.load]

/-- Witness for C20: a load without delta on a layer that plays producer 1
with an armed delta. -/
theorem load_frame_condition_witness :
    layer.load demo_ops 7 none ⟨1, 2, 4, some 1, true⟩ demo_heap =
        ({ foreground_ := 1, background_ := 7, frame_number_ := 4, auto_play_delta_ := none,
           is_paused_ := true }, demo_heap) ∧
      (layer.load demo_ops 7 none ⟨1, 2, 4, some 1, true⟩ demo_heap).1.auto_play_delta_ = none :=
  load_frame_condition demo_ops 7 none ⟨1, 2, 4, some 1, true⟩ demo_heap (by decide)

/-- C14 (as stated, refuted). Two `stop()` calls on a fresh executor whose
normal queue has room for two entries (capacity 2, and just so at the default
capacity) leave two wake entries in the normal queue and size 2; one call
leaves one entry and size 1. -/
theorem stop_twice_differs_from_stop_once :
    (executor.create.stop_bounded 2).stop_bounded 2 ≠ executor.create.stop_bounded 2 ∧
      ((executor.create.stop_bounded 2).stop_bounded 2).normal = [.noop, .noop] ∧
      (executor.create.stop_bounded 2).normal = [.noop] ∧
      ((executor.create.stop_bounded 2).stop_bounded 2).size = 2 ∧
      (executor.create.stop_bounded 2).size = 1 ∧
      executor.create.stop.stop ≠ executor.create.stop ∧
      executor.create.stop.stop.size = 2 ∧ executor.create.stop.size = 1 := by
  decide

/-- C14 (amended). For every executor state and every capacity of the normal
queue, a second `stop()` leaves the running flag (false) and the high queue
as the first one left them.  When the normal queue is not full after the
first call, the second call appends one more empty lambda to it and `size()`
grows by one; when it is full, `try_push` pushes nothing and the second call
changes nothing at all.  On a queue that is not full `stop()` is the method of
the default capacity, and the empty lambda executes nothing when it is run. -/
theorem stop_again_only_adds_wake_entry (capacity : Nat) (s : executor) :
    ((s.stop_bounded capacity).stop_bounded capacity).is_running =
        (s.stop_bounded capacity).is_running ∧
      (s.stop_bounded capacity).is_running = false ∧
      ((s.stop_bounded capacity).stop_bounded capacity).high = (s.stop_bounded capacity).high ∧
      (s.stop_bounded capacity).high = s.high ∧
      ((s.stop_bounded capacity).normal.length < capacity →
        ((s.stop_bounded capacity).stop_bounded capacity).normal =
            (s.stop_bounded capacity).normal ++ [entry.noop] ∧
          ((s.stop_bounded capacity).stop_bounded capacity).size =
            (s.stop_bounded capacity).size + 1) ∧
      (capacity ≤ (s.stop_bounded capacity).normal.length →
        (s.stop_bounded capacity).stop_bounded capacity = s.stop_bounded capacity) ∧
      (s.normal.length < capacity → s.stop_bounded capacity = s.stop) ∧
      (capacity ≤ s.normal.length → s.stop_bounded capacity = { s with is_running_ := false }) ∧
      ∀ (prog : program) (s1 : executor), entry.noop.run prog s1 = (s1, []) := by
  have hflag : ∀ s0 : executor, (s0.stop_bounded capacity).is_running_ = false := by
    intro s0
    unfold executor.stop_bounded executor.try_push_normal
    split <;> rfl
  have hhigh : ∀ s0 : executor, (s0.stop_bounded capacity).high = s0.high := by
    intro s0
    unfold executor.stop_bounded executor.try_push_normal
    split <;> rfl
  have hroom : ∀ s0 : executor, s0.normal.length < capacity →
      s0.stop_bounded capacity = s0.stop := by
    intro s0 h
    unfold executor.stop_bounded executor.try_push_normal executor.stop
    simp only [h, if_true]
  have hfull : ∀ s0 : executor, capacity ≤ s0.normal.length →
      s0.stop_bounded capacity = { s0 with is_running_ := false } := by
    intro s0 h
    unfold executor.stop_bounded executor.try_push_normal
    simp only [Nat.not_lt.2 h, if_false]
  refine ⟨?_, hflag s, hhigh _, hhigh s, ?_, ?_, hroom s, hfull s, fun _ _ => rfl⟩
  · simp only [executor.is_running, hflag]
  · intro h
    rw [hroom _ h]
    refine ⟨rfl, ?_⟩
    simp only [executor.size, executor.stop, List.length_append, List.length_singleton]
    omega
  · intro h
    rw [hfull _ h]
    have := hflag s
    cases hs : s.stop_bounded capacity with
    | mk r hi no =>
      rw [hs] at this
      simp only [] at this
      subst this
      rfl

/-- Witness for C14: on a fresh executor with capacity 2 the second `stop()`
adds a second empty lambda and `size()` grows by one; with capacity 1 the
normal queue is full after the first call and the second call changes
nothing. -/
theorem stop_again_only_adds_wake_entry_witness :
    (((executor.create.stop_bounded 2).stop_bounded 2).normal =
          (executor.create.stop_bounded 2).normal ++ [entry.noop] ∧
        ((executor.create.stop_bounded 2).stop_bounded 2).size =
          (executor.create.stop_bounded 2).size + 1) ∧
      (executor.create.stop_bounded 1).stop_bounded 1 = executor.create.stop_bounded 1 :=
  ⟨(stop_again_only_adds_wake_entry 2 executor.create).2.2.2.2.1 (by decide),
    (stop_again_only_adds_wake_entry 1 executor.create).2.2.2.2.2.1 (by decide)⟩

/-- C15. `yield` called off the worker thread, for every program, fuel and
executor state: it throws `invalid_operation` (with the message "Executor can
only yield inside of thread context."), the class that stands for the
spec's InvalidOperationError, whatever the queues hold.  The failure comes
before any access to the queues: the result carries no state and no trace,
it is never a return, a wait in `pop` or an unfinished drain, and it is the
same for every program and every queue content. -/
theorem yield_off_worker_throws (prog : program) (fuel : Nat) (s : executor) :
    yield prog fuel false s =
        .raised (.invalid_operation
          (some "Executor can only yield inside of thread context.")) ∧
      (exception.invalid_operation
        (some "Executor can only yield inside of thread context.")).cls =
        exception_class.invalid_operation ∧
      (∀ s2 tr, yield prog fuel false s ≠ .returned s2 tr) ∧
      yield prog fuel false s ≠ .blocked ∧ yield prog fuel false s ≠ .unfinished ∧
      ∀ (prog2 : program) (fuel2 : Nat) (s2 : executor),
        yield prog2 fuel2 false s2 = yield prog fuel false s := by
  refine ⟨rfl, rfl, ?_, ?_, ?_, fun _ _ _ => rfl⟩
  · intro s2 tr h
    simp [yield] at h
  · intro h
    simp [yield] at h
  · intro h
    simp [yield] at h

theorem packaged_task_run_started (prog : program) (t : packaged_task) (s : executor)
    (h : t.started = true) :
    t.run prog s = { outcome := .error .task_already_started, task := t, s := s, trace := [] } := by
  simp [packaged_task.run, h]

theorem packaged_task_run_fresh (prog : program) (t : packaged_task) (s : executor)
    (h : t.started = false) :
    t.run prog s =
      { outcome := .ok (),
        task := { t with started := true, future := some (call prog t.func s).1 },
        s := (call prog t.func s).2, trace := [t.func] } := by
  simp [packaged_task.run, h]

/-- The wait callback throws nothing either. -/
theorem wait_callback_ok (prog : program) (b : Bool) (t : packaged_task) (s : executor) :
    (wait_callback prog b t s).outcome = .ok () := by
  unfold wait_callback
  cases b
  · rfl
  · cases hs : t.started
    · simp only [if_true]
      rw [packaged_task_run_fresh prog t s hs]
    · simp only [if_true]
      rw [packaged_task_run_started prog t s hs]

/-- On a task that has been started, both ways of claiming it do nothing. -/
theorem claim_started_task (prog : program) (t : packaged_task) (s : executor)
    (h : t.started = true) :
    queued_lambda prog t s = { outcome := .ok (), task := t, s := s, trace := [] } ∧
      wait_callback prog true t s = { outcome := .ok (), task := t, s := s, trace := [] } := by
  unfold queued_lambda wait_callback
  simp only [if_true]
  rw [packaged_task_run_started prog t s h]
  exact ⟨rfl, rfl⟩

theorem run_task_zero (prog : task_program) (id : Nat) (st : task_executor) :
    task_executor.run_task prog 0 id st = none := rfl

theorem high_out_le_normal_out (prog : program) (e : entry) :
    (e.high_out prog).length ≤ (e.normal_out prog).length := by
  cases e with
  | task f =>
    simp only [entry.high_out, entry.normal_out, high_submits, normal_pushes, List.length_map]
    exact List.length_filter_le _ _
  | noop => simp [entry.high_out, entry.normal_out]
  | null => simp [entry.high_out, entry.normal_out]

/-- After a `yield` that returns, the normal queue is at least as long as the high queue. -/
theorem yield_wake_entries (prog : program) (fuel : Nat) (s s1 : executor) (t : List Nat)
    (h : yield prog fuel true s = .returned s1 t) : s1.high.length ≤ s1.normal.length := by
  unfold yield at h
  simp only [Bool.not_true, Bool.false_eq_true, if_false] at h
  cases hq : s.normal with
  | nil => rw [hq] at h; simp at h
  | cons func rest =>
    rw [hq] at h
    simp only [] at h
    cases hd : drain prog fuel { s with normal := rest } with
    | none => rw [hd] at h; simp at h
    | some r =>
      obtain ⟨sd, td⟩ := r
      rw [hd] at h
      simp only [yield_result.returned.injEq] at h
      obtain ⟨h1, _, _, _⟩ := drain_post prog fuel _ sd td hd
      rw [← h.1, entry_run_eq]
      have hle := high_out_le_normal_out prog func
      cases sd.is_running_
      · simp [h1]
      · simp only [if_true, h1, List.nil_append, List.length_append]
        omega

/-- A call from another thread keeps the normal queue at least as long as the high queue. -/
theorem request_wake_entries (r : request) (s : executor)
    (h : s.high.length ≤ s.normal.length) :
    (r.apply s).high.length ≤ (r.apply s).normal.length := by
  cases r with
  | begin_invoke f p =>
    simp only [request.apply]
    cases hb : begin_invoke f p s with
    | error e => exact h
    | ok s1 =>
      obtain ⟨hh, _, _⟩ := begin_invoke_high f p s s1 hb
      unfold begin_invoke at hb
      cases hr : s.is_running_
      · simp [hr] at hb
      · cases p <;> simp [hr, executor.push] at hb <;> subst hb <;> simp <;> omega
  | stop =>
    simp only [request.apply, executor.stop, List.length_append, List.length_singleton]
    omega
  | clear => simp [request.apply, executor.clear]

theorem run_actions_wake_entries (prog : program) (fuel : Nat) :
    ∀ (acts : List action) (s0 s : executor) (tr : List Nat),
      s0.high.length ≤ s0.normal.length →
      run_actions prog fuel acts s0 = some (s, tr) → s.high.length ≤ s.normal.length := by
  intro acts
  induction acts with
  | nil =>
    intro s0 s tr h0 h
    simp only [run_actions, Option.some.injEq, Prod.mk.injEq] at h
    rw [← h.1]; exact h0
  | cons a rest ih =>
    intro s0 s tr h0 h
    cases a with
    | call r =>
      simp only [run_actions] at h
      exact ih _ _ _ (request_wake_entries r s0 h0) h
    | yield =>
      simp only [run_actions] at h
      cases hy : yield prog fuel true s0 with
      | raised e => rw [hy] at h; simp at h
      | blocked => rw [hy] at h; simp at h
      | unfinished => rw [hy] at h; simp at h
      | returned s1 t =>
        rw [hy] at h
        simp only [] at h
        cases hx : run_actions prog fuel rest s1 with
        | none => rw [hx] at h; simp at h
        | some r =>
          obtain ⟨s3, t3⟩ := r
          rw [hx] at h
          simp only [Option.some.injEq, Prod.mk.injEq] at h
          rw [← h.1]
          exact ih _ _ _ (yield_wake_entries prog fuel s0 s1 t hy) hx

/-- C19. Wake-entry invariant.  In every state reached from the fresh
executor by `begin_invoke` calls of either priority, `yield`s of the worker,
`stop` and `clear` calls, the normal queue holds at least as many entries as
the high queue; so when the high queue is not empty the normal queue is not
empty either, and a `yield` of the worker does not wait in its `pop`. -/
theorem wake_entry_invariant (prog : program) (fuel : Nat) (acts : List action)
    (s : executor) (tr : List Nat)
    (hreach : run_actions prog fuel acts executor.create = some (s, tr)) :
    s.high.length ≤ s.normal.length ∧ (s.high ≠ [] → s.normal ≠ []) ∧
      (s.high ≠ [] → ∀ fuel2, yield prog fuel2 true s ≠ .blocked) := by
  have hinv := run_actions_wake_entries prog fuel acts executor.create s tr
    (by simp [executor.create]) hreach
  have hne : s.high ≠ [] → s.normal ≠ [] := by
    intro hh hn
    rw [hn] at hinv
    simp only [List.length_nil, Nat.le_zero, List.length_eq_zero] at hinv
    exact hh hinv
  refine ⟨hinv, hne, ?_⟩
  intro hh fuel2 hb
  have hn := hne hh
  unfold yield at hb
  simp only [Bool.not_true, Bool.false_eq_true, if_false] at hb
  cases hq : s.normal with
  | nil => exact hn hq
  | cons func rest =>
    rw [hq] at hb
    simp only [] at hb
    cases hd : drain prog fuel2 { s with normal := rest } <;> rw [hd] at hb <;> simp at hb

/-- Witness for C19: submissions of both priorities, a `yield`, `stop` and a
refused submission on the example program. -/
theorem wake_entry_invariant_witness :
    (⟨false, [.task 2], [.null, .task 8, .null, .task 5, .null, .noop]⟩ : executor).high.length ≤
        (⟨false, [.task 2], [.null, .task 8, .null, .task 5, .null, .noop]⟩ : executor).normal.length ∧
      ((⟨false, [.task 2], [.null, .task 8, .null, .task 5, .null, .noop]⟩ : executor).high ≠ [] →
        (⟨false, [.task 2], [.null, .task 8, .null, .task 5, .null, .noop]⟩ : executor).normal ≠ []) ∧
      ((⟨false, [.task 2], [.null, .task 8, .null, .task 5, .null, .noop]⟩ : executor).high ≠ [] →
        ∀ fuel2, yield demo_prog_wf fuel2 true
          ⟨false, [.task 2], [.null, .task 8, .null, .task 5, .null, .noop]⟩ ≠ .blocked) :=
  wake_entry_invariant demo_prog_wf 3
    [.call (.begin_invoke 1 .normal_priority), .call (.begin_invoke 3 .high_priority),
      .call (.begin_invoke 8 .normal_priority), .yield, .call .stop,
      .call (.begin_invoke 9 .high_priority)]
    ⟨false, [.task 2], [.null, .task 8, .null, .task 5, .null, .noop]⟩ [3, 4, 1] (by decide)

/-! ## Theorems: monitor and stage -/

/-- C13. Monitor event re-scoping.  An event with path "/foo" sent through a
subject scoped at "/bar" is delivered to every subscriber with path
"/bar/foo" and its own parameters, whatever the parameters and subscribers.
In general a subject with a non-empty path hands on the event with the
subject's path first, then the event's path, with a "/" between them unless
the event's path starts with one; and a subject whose path is empty hands
every event on as it is. -/
theorem subject_rescopes_events (ps : List monitor.param) (obs : List Nat) :
    monitor.basic_subject.on_next ⟨monitor.path.of "/bar", obs⟩ ⟨monitor.path.of "/foo", ps⟩ =
        obs.map (fun o => (o, (⟨monitor.path.of "/bar/foo", ps⟩ : monitor.event))) ∧
      (∀ (sub : monitor.basic_subject) (e : monitor.event) (c : Char) (cs : List Char),
        sub.path_.str_ ≠ [] → e.path_.str_ = c :: cs →
          sub.forwarded e =
            ⟨⟨sub.path_.str_ ++ ((if c ≠ '/' then ['/'] else []) ++ e.path_.str_)⟩,
              e.params_⟩) ∧
      (∀ (sub : monitor.basic_subject) (e : monitor.event), sub.path_.str_ = [] →
        sub.forwarded e = e ∧ sub.on_next e = sub.observers.map (fun o => (o, e))) := by
  refine ⟨?_, ?_, ?_⟩
  · simp only [monitor.basic_subject.on_next, monitor.basic_subject.forwarded]
    rfl
  · intro sub e c cs hs he
    have hne : sub.path_.empty = false := by
      unfold monitor.path.empty
      cases h : sub.path_.str_ with
      | nil => exact absurd h hs
      | cons a b => rfl
    simp only [monitor.basic_subject.forwarded, hne, Bool.false_eq_true, if_false,
      monitor.event.propagate, monitor.path.append_path, monitor.path.append, he]
  · intro sub e hs
    have he : sub.path_.empty = true := by
      unfold monitor.path.empty
      rw [hs]; rfl
    simp [monitor.basic_subject.on_next, monitor.basic_subject.forwarded, he]

theorem scheduled_for_apply_other (i j : Int) (t d : Nat) (e : String)
    (ts : List scheduled) (hj : j ≠ i) :
    scheduled_for j (apply_transform i t d e ts) = scheduled_for j ts := by
  unfold scheduled_for apply_transform
  rw [List.filter_cons]
  have h1 : ¬ (decide (({ index := i, spec := ⟨t, d, e⟩, elapsed := 0 } : scheduled).index = j)
      = true) := by
    simp only [decide_eq_true_eq]
    exact fun h => hj h.symm
  rw [if_neg h1, List.filter_filter]
  apply List.filter_congr
  intro a _
  by_cases ha : a.index = j
  · simp [ha, hj]
  · simp [ha]

theorem scheduled_for_apply_same (i : Int) (t d : Nat) (e : String) (ts : List scheduled) :
    scheduled_for i (apply_transform i t d e ts) =
      [{ index := i, spec := ⟨t, d, e⟩, elapsed := 0 }] := by
  unfold scheduled_for apply_transform
  rw [List.filter_cons]
  simp only [decide_True, if_true, List.filter_filter]
  congr 1
  rw [List.filter_eq_nil_iff]
  intro a _
  simp

/-- C16. Stage transform replacement, on the schedule modelled from the spec.
`apply_transform(i, t1, ...)`, any number of ticks, then
`apply_transform(i, t2, ...)`: exactly one animation is scheduled for index
`i`, the one that targets `t2`, not yet advanced; and for every other index
the second call leaves the scheduled animations as they were before it, as
the first call did. -/
theorem apply_transform_replaces (i : Int) (t1 d1 : Nat) (e1 : String) (t2 d2 : Nat)
    (e2 : String) (ticks : Nat) (ts : List scheduled) :
    scheduled_for i
        (apply_transform i t2 d2 e2 (tick_transforms^[ticks] (apply_transform i t1 d1 e1 ts))) =
        [{ index := i, spec := { target := t2, duration := d2, easing := e2 }, elapsed := 0 }] ∧
      (scheduled_for i
        (apply_transform i t2 d2 e2
          (tick_transforms^[ticks] (apply_transform i t1 d1 e1 ts)))).length = 1 ∧
      (∀ j, j ≠ i →
        scheduled_for j
            (apply_transform i t2 d2 e2
              (tick_transforms^[ticks] (apply_transform i t1 d1 e1 ts))) =
          scheduled_for j (tick_transforms^[ticks] (apply_transform i t1 d1 e1 ts))) ∧
      (∀ j, j ≠ i →
        scheduled_for j (apply_transform i t1 d1 e1 ts) = scheduled_for j ts) ∧
      scheduled_for i (apply_transform i t1 d1 e1 ts) =
        [{ index := i, spec := { target := t1, duration := d1, easing := e1 }, elapsed := 0 }] := by
  refine ⟨scheduled_for_apply_same _ _ _ _ _, ?_,
    fun j hj => scheduled_for_apply_other _ _ _ _ _ _ hj,
    fun j hj => scheduled_for_apply_other _ _ _ _ _ _ hj, scheduled_for_apply_same _ _ _ _ _⟩
  rw [scheduled_for_apply_same]
  rfl

/-- C21. Appending a string value to a monitor path with `operator%=` or
`operator%`, for every path `p` and string `s`: the empty string leaves `p`
as it is; a string that starts with '/' gives the string of `p` followed by
it; a non-empty string that does not start with '/' gives the string of `p`,
then "/", then the string; so "foo" and "/foo" appended to the path "/bar"
both give "/bar/foo"; and the result is never shorter than `p`: it is longer
by the length of `s`, plus one when the "/" is inserted. -/
theorem path_append_string (p : monitor.path) (s : List Char) :
    p.append [] = p ∧
      (∀ cs, (p.append ('/' :: cs)).str = p.str ++ '/' :: cs) ∧
      (∀ c cs, c ≠ '/' → (p.append (c :: cs)).str = p.str ++ ['/'] ++ c :: cs) ∧
      p.percent s = p.append s ∧
      (∀ v : String, p.append_cstr v = p.append v.toList) ∧
      (monitor.path.of "/bar").percent "foo".toList = monitor.path.of "/bar/foo" ∧
      (monitor.path.of "/bar").percent "/foo".toList = monitor.path.of "/bar/foo" ∧
      (monitor.path.of "/bar").append_cstr "foo" = monitor.path.of "/bar/foo" ∧
      (monitor.path.of "/bar").append_cstr "/foo" = monitor.path.of "/bar/foo" ∧
      p.str.length ≤ (p.append s).str.length ∧
      (p.append s).str.length ≤ p.str.length + s.length + 1 ∧
      (s ≠ [] → p.str.length < (p.append s).str.length) := by
  refine ⟨rfl, fun cs => ?_, fun c cs hc => ?_, rfl, fun _ => rfl, by decide, by decide,
    by decide, by decide, ?_, ?_, ?_⟩
  · simp [monitor.path.append, monitor.path.str]
  · simp [monitor.path.append, monitor.path.str, hc]
  · cases s with
    | nil => exact le_refl _
    | cons c cs =>
      simp only [monitor.path.append, monitor.path.str, List.length_append]
      omega
  · cases s with
    | nil => simp [monitor.path.append, monitor.path.str]
    | cons c cs =>
      simp only [monitor.path.append, monitor.path.str, List.length_append, List.length_cons]
      split
      · simp only [List.length_singleton, List.length_nil]; omega
      · simp only [List.length_singleton, List.length_nil]; omega
  · intro hs
    cases s with
    | nil => exact absurd rfl hs
    | cons c cs =>
      simp only [monitor.path.append, monitor.path.str, List.length_append, List.length_cons]
      omega

end caspar
